import Mathlib

/-!
Shallow embedding of the lottery-prediction ml-service core
(`app/algorithms/{utils,base,frequency,trend,lstm,random_forest,ensemble}.py`).

Python floats are modelled as exact rationals (`ℚ`), Python lists as `List`,
Python dicts with a fixed key range (score tables, frequency tables) as
association lists in insertion order.  The standard-library random source is
modelled by an abstract stream of naturals (`Rng`) together with an explicit
cursor; every primitive that draws randomness consumes stream positions and
returns the advanced cursor, mirroring the sequential use of Python's global
`random` state.  Transcendental primitives that `ℚ` cannot represent exactly
(`np.sin` ramps, the square root inside `np.std`) and the trained
scikit-learn classifier are abstracted as explicit parameters (`Env`,
`ForestOracle`): every theorem below is proved for all instantiations
(sometimes under hypotheses true of the real primitives, e.g. nonnegative
sine values on [0, π/2], probabilities in [0,1]).
-/

/-- Ordered insertion step of the stable sort below. -/
def List.insertB {α : Type} (r : α → α → Bool) (a : α) : List α → List α
  | [] => [a]
  | b :: l => if r a b then a :: b :: l else b :: List.insertB r a l

/-- A stable insertion sort used to model Python's (stable) `sorted`/`list.sort`
and NumPy's comparison sorts; structurally recursive so that concrete
prediction runs evaluate inside the kernel.  Both this sort and Python's are
stable, and a stable sort by a given total preorder is unique, so the two
agree on every input. -/
def List.sortB {α : Type} (l : List α) (r : α → α → Bool) : List α :=
  match l with
  | [] => []
  | a :: rest => List.insertB r a (List.sortB rest r)

namespace LotteryPred

/-- Abstract stream of random naturals; models Python's `random` module state. -/
structure Rng where
  seq : Nat → Nat

/-- `random.randint(lo, hi)`: inclusive-range uniform integer, one draw consumed. -/
def randInt (r : Rng) (i : Nat) (lo hi : Int) : Int × Nat :=
  (lo + (r.seq i : Int) % (hi - lo + 1), i + 1)

/-- Sampling without replacement: `random.sample(pool, k)`; also used (with
`k = pool.length`) to model `random.shuffle`, since taking a prefix of a
uniformly shuffled list is exactly uniform sampling without replacement. -/
def sampleTake (r : Rng) : Nat → List Int → Nat → List Int × Nat
  | i, _, 0 => ([], i)
  | i, pool, k + 1 =>
    if pool.length = 0 then ([], i)
    else
      let x := pool.getD (r.seq i % pool.length) 0
      let rest := pool.erase x
      let out := sampleTake r (i + 1) rest k
      (x :: out.1, out.2)

/-- Heterogeneous metadata values (the open `metadata` dict of a result). -/
inductive MetaVal where
  | int : Int → MetaVal
  | rat : ℚ → MetaVal
  | bool : Bool → MetaVal
  | str : String → MetaVal
  | intList : List Int → MetaVal
  | vlist : List MetaVal → MetaVal
  | dict : List (String × MetaVal) → MetaVal

/-- `PredictionResult` from `base.py`. -/
structure PredictionResult where
  red_balls : List Int
  blue_ball : Int
  confidence : ℚ
  metadata : Option (List (String × MetaVal))

/-- Key lookup in a metadata dict (Python `metadata.get(key)`). -/
def metaGet (p : PredictionResult) (k : String) : Option MetaVal :=
  match p.metadata with
  | none => none
  | some l => l.lookup k

/-- Integer comparator used to model Python's ascending `sorted` / `.sort()`. -/
def intLe (a b : Int) : Bool := a ≤ b

/-- Comparator for `sorted(d.items(), key=lambda x: x[1], reverse=True)`:
stable descending order on the second component. -/
def descBySnd {α : Type} (a b : α × ℚ) : Bool := b.2 ≤ a.2

/-- Same, for `Nat`-valued count tables. -/
def descBySndNat {α : Type} (a b : α × Nat) : Bool := b.2 ≤ a.2

/-- `sorted(set(l))`: distinct values in ascending order. -/
def dedupSortInts (l : List Int) : List Int :=
  l.dedup.sortB intLe

/-- The primary pool `range(1, 34)` as a list. -/
def pool33 : List Int := (List.range 33).map (fun (k : Nat) => (k : Int) + 1)

/-- Value lookup with default: Python `d.get(k, dflt)` on an association list. -/
def lookupD {β : Type} (l : List (Int × β)) (k : Int) (dflt : β) : β :=
  match l.lookup k with
  | some v => v
  | none => dflt

/-- Same for string-keyed tables (`self.weights.get(name, 0.0)`). -/
def lookupSD (l : List (String × ℚ)) (k : String) (dflt : ℚ) : ℚ :=
  match l.lookup k with
  | some v => v
  | none => dflt

/-- `np.mean` over a rational list (`sum/len`; the empty case is unreachable in
all modelled call sites and is mapped to `0`). -/
def meanQ (l : List ℚ) : ℚ := l.sum / l.length

/-- Population variance, the quantity under the square root of `np.std`. -/
def varianceQ (l : List ℚ) : ℚ := meanQ (l.map (fun x => (x - meanQ l) ^ 2))

/-- Fold-maximum with a seed, modelling `np.max` / `max()` on a score vector. -/
def maxD (l : List ℚ) (d : ℚ) : ℚ := l.foldl max d

/-- `np.argmax`: index of the first occurrence of the maximum. -/
def argmaxIdx (l : List ℚ) : Nat := l.findIdx (fun x => maxD l (l.headD 0) ≤ x)

/-- Python `max(d, key=d.get)` on an association list: the first key attaining
the maximal value (`>` comparison keeps the earlier entry on ties). -/
def argmaxList (l : List (Int × ℚ)) (dflt : Int) : Int :=
  match l with
  | [] => dflt
  | p :: rest => (rest.foldl (fun best q => if best.2 < q.2 then q else best) p).1

/-- Python's banker's rounding to an integer (`round` ties-to-even). -/
def roundHalfEven (x : ℚ) : Int :=
  let f := x.floor
  let frac := x - f
  if frac < 1 / 2 then f
  else if 1 / 2 < frac then f + 1
  else if f % 2 = 0 then f else f + 1

/-- Python `round(x, digits)`. -/
def roundQ (x : ℚ) (digits : Nat) : ℚ :=
  (roundHalfEven (x * 10 ^ digits) : ℚ) / 10 ^ digits

/-- One historical draw, as consumed through `draw.get('red_balls', ...)` and
`draw.get('blue_ball', ...)` (`none` models a missing/`None` blue entry). -/
structure Draw where
  red_balls : List Int
  blue_ball : Option Int

/-- `extract_red_balls` (utils.py): keep the 6-element red lists. -/
def extractRedBalls (data : List Draw) : List (List Int) :=
  (data.filter (fun d => d.red_balls.length = 6)).map (fun d => d.red_balls)

/-- `extract_blue_balls` (utils.py): keep truthy in-range blue values. -/
def extractBlueBalls (data : List Draw) : List Int :=
  data.filterMap (fun d =>
    match d.blue_ball with
    | some b => if 1 ≤ b ∧ b ≤ 16 then some b else none
    | none => none)

/-- `calculate_frequency` (utils.py): full count table over `1..range_max`,
in key insertion order. -/
def calculateFrequency (numbers : List Int) (rangeMax : Nat) : List (Int × Nat) :=
  (List.range rangeMax).map (fun (k : Nat) => ((k : Int) + 1, numbers.count ((k : Int) + 1)))

/-- `calculate_frequency_confidence` (utils.py). -/
def calculateFrequencyConfidence (selected : List Int) (freq : List (Int × Nat)) : ℚ :=
  let total : Nat := (freq.map (fun p => p.2)).sum
  if total = 0 then 50
  else
    let selOcc : Nat := (selected.map (fun n => lookupD freq n 0)).sum
    let concentration : ℚ := (selOcc : ℚ) / (total : ℚ) * 100
    min (50 + concentration * (25 / 100)) 75

/-- `np.percentile(vals, q)` with the default linear interpolation method. -/
def percentileQ (vals : List ℚ) (q : ℚ) : ℚ :=
  let sorted := vals.sortB (fun a b => a ≤ b)
  let n := sorted.length
  if n = 0 then 0
  else
    let rank : ℚ := (n - 1 : ℚ) * q / 100
    let lo : Nat := rank.floor.toNat
    let frac : ℚ := rank - (lo : ℚ)
    let vlo := sorted.getD lo 0
    let vhi := sorted.getD (min (lo + 1) (n - 1)) 0
    vlo + frac * (vhi - vlo)

/-- `calculate_hot_cold_numbers` (utils.py): (hot, cold, neutral) partition
of the count table by the 70th/30th percentile cutoffs. -/
def calculateHotCold (freq : List (Int × Nat)) : List Int × List Int × List Int :=
  if freq.length = 0 then ([], [], pool33)
  else
    let vals : List ℚ := freq.map (fun p => (p.2 : ℚ))
    let hotCut := percentileQ vals 70
    let coldCut := percentileQ vals 30
    let hot := (freq.filter (fun p => hotCut ≤ (p.2 : ℚ))).map (fun p => p.1)
    let cold := (freq.filter (fun p => ¬ hotCut ≤ (p.2 : ℚ) ∧ (p.2 : ℚ) ≤ coldCut)).map (fun p => p.1)
    let neutral := (freq.filter (fun p => ¬ hotCut ≤ (p.2 : ℚ) ∧ ¬ (p.2 : ℚ) ≤ coldCut)).map (fun p => p.1)
    (hot, cold, neutral)

/-- `moving_average` (utils.py). -/
def movingAverage (data : List ℚ) (window : Nat) : List ℚ :=
  if data.length < window then data
  else
    (List.range data.length).map (fun i =>
      if i < window - 1 then meanQ (data.take (i + 1))
      else meanQ ((data.drop (i + 1 - window)).take window))

/-- The red-ball fixup step of `validate_prediction`: fill a short list from
shuffled unused pool numbers, truncate a long one. -/
def fillReds (red0 : List Int) (r : Rng) (i : Nat) : List Int × Nat :=
  if red0.length < 6 then
    let available := pool33.filter (fun n => ¬ red0.contains n)
    let perm := sampleTake r i available available.length
    ((red0 ++ perm.1.take (6 - red0.length)).sortB intLe, perm.2)
  else if 6 < red0.length then (red0.take 6, i)
  else (red0, i)

/-- The blue-ball fixup step of `validate_prediction`: replace an
out-of-range value by a uniform in-range draw. -/
def fixBlue (b : Int) (r : Rng) (i : Nat) : Int × Nat :=
  if b < 1 ∨ 16 < b then randInt r i 1 16 else (b, i)

/-- `LotteryPredictor.validate_prediction` (base.py), parameterized by the
generator's `max_confidence`.  Total function: never raises. -/
def validatePrediction (maxConf : ℚ) (res : PredictionResult) (r : Rng) (i : Nat) :
    PredictionResult × Nat :=
  let step := fillReds (dedupSortInts res.red_balls) r i
  let blueStep := fixBlue res.blue_ball r step.2
  ({ red_balls := step.1
     blue_ball := blueStep.1
     confidence := min res.confidence maxConf
     metadata := res.metadata }, blueStep.2)

/-- `LotteryPredictor.generate_random_fallback` (base.py). -/
def generateRandomFallback (r : Rng) (i : Nat) : PredictionResult × Nat :=
  let s := sampleTake r i pool33 6
  let blue := randInt r s.2 1 16
  ({ red_balls := s.1.sortB intLe
     blue_ball := blue.1
     confidence := 30
     metadata := some [("fallback", MetaVal.bool true)] }, blue.2)

/-! ### Frequency generator (`frequency.py`, ceiling 75) -/

/-- `FrequencyPredictor.predict`. -/
def freqPredict (hist : List Draw) (datasetSize : Nat) (r : Rng) (i : Nat) :
    PredictionResult × Nat :=
  if hist.length = 0 then generateRandomFallback r i
  else
    let data := hist.take datasetSize
    let redList := extractRedBalls data
    let blueList := extractBlueBalls data
    if redList.length = 0 then generateRandomFallback r i
    else
      let allRed := redList.flatten
      let redFreq := calculateFrequency allRed 33
      let blueFreq := calculateFrequency blueList 16
      let sortedRed := redFreq.sortB descBySndNat
      let predictedRed := ((sortedRed.take 6).map (fun p => p.1)).sortB intLe
      let sortedBlue := blueFreq.sortB descBySndNat
      let blueStep :=
        match sortedBlue with
        | [] => randInt r i 1 16
        | p :: _ => (p.1, i)
      let confidence := calculateFrequencyConfidence predictedRed redFreq
      let hc := calculateHotCold redFreq
      validatePrediction 75
        { red_balls := predictedRed
          blue_ball := blueStep.1
          confidence := confidence
          metadata := some
            [("hot_numbers", MetaVal.intList hc.1),
             ("cold_numbers", MetaVal.intList hc.2.1),
             ("neutral_numbers", MetaVal.intList hc.2.2),
             ("top_red_frequency", MetaVal.int (((sortedRed.headD (0, 0)).2 : Int))),
             ("top_blue_frequency", MetaVal.int (((sortedBlue.headD (0, 0)).2 : Int)))] }
        r blueStep.2

/-! ### Trend generator (`trend.py`, ceiling 70) -/

/-- `TrendPredictor._calculate_slope`: OLS slope over index/value pairs. -/
def calcSlope (values : List ℚ) : ℚ :=
  if values.length < 2 then 0
  else
    let n := values.length
    let xs : List ℚ := (List.range n).map (fun (k : Nat) => (k : ℚ))
    let xMean := meanQ xs
    let yMean := meanQ values
    let num := ((xs.zip values).map (fun p => (p.1 - xMean) * (p.2 - yMean))).sum
    let den := (xs.map (fun x => (x - xMean) ^ 2)).sum
    if den = 0 then 0 else num / den

/-- `TrendPredictor._calculate_trend_scores`: full primary score table. -/
def calculateTrendScores (redHist : List (List Int)) (rangeMax : Nat) : List (Int × ℚ) :=
  (List.range rangeMax).map (fun (k : Nat) =>
    let num : Int := (k : Int) + 1
    let appearances : List ℚ := redHist.map (fun draw => if num ∈ draw then 1 else 0)
    (num,
      if appearances.sum < 3 then 0
      else
        let windowSize := min 10 (appearances.length / 3)
        let ma := movingAverage appearances windowSize
        if 5 ≤ ma.length then calcSlope (ma.drop (ma.length - 5)) else 0))

/-- `TrendPredictor._calculate_blue_trend`. -/
def calculateBlueTrend (blueHist : List Int) : List (Int × ℚ) :=
  (List.range 16).map (fun (k : Nat) =>
    let num : Int := (k : Int) + 1
    let appearances : List ℚ := blueHist.map (fun b => if b = num then 1 else 0)
    (num,
      if appearances.sum < 2 then 0
      else
        let windowSize := min 8 (appearances.length / 3)
        let ma := movingAverage appearances windowSize
        if 3 ≤ ma.length then calcSlope (ma.drop (ma.length - 3)) else 0))

/-- `TrendPredictor.predict`.  `hasStatsmodels` only selects the metadata
method string (ARIMA itself is never invoked by the source). -/
def trendPredict (hasStatsmodels : Bool) (hist : List Draw) (datasetSize : Nat)
    (r : Rng) (i : Nat) : PredictionResult × Nat :=
  if hist.length = 0 ∨ hist.length < 30 then generateRandomFallback r i
  else
    let data := hist.take datasetSize
    let redList := extractRedBalls data
    let blueList := extractBlueBalls data
    if redList.length = 0 ∨ redList.length < 30 then generateRandomFallback r i
    else
      let redTrendScores := calculateTrendScores redList 33
      let sortedRed := redTrendScores.sortB descBySnd
      let predictedRed := ((sortedRed.take 6).map (fun p => p.1)).sortB intLe
      let blueTrendScores := calculateBlueTrend blueList
      let predictedBlue := argmaxList blueTrendScores 0
      let top6 := (sortedRed.take 6).map (fun p => p.2)
      let avgTrendStrength := if top6.length = 0 then 0 else meanQ top6
      let confidence := 50 + avgTrendStrength * 20
      validatePrediction 70
        { red_balls := predictedRed
          blue_ball := predictedBlue
          confidence := confidence
          metadata := some
            [("trend_method", MetaVal.str (if hasStatsmodels then "arima" else "moving_average")),
             ("avg_trend_strength", MetaVal.rat (roundQ avgTrendStrength 3)),
             ("data_points", MetaVal.int (redList.length : Int))] }
        r i

/-! ### Sequence-memory generator (`lstm.py`, ceiling 68) -/

/-- Environment abstraction for primitives `ℚ` cannot represent exactly and
for optional libraries: `sinRamp n` models `np.sin(np.linspace(0, π/2, n))`,
`sqrtQ` the square root inside `np.std`, and the two flags model the
optional-library guards (`HAS_SKLEARN`, `HAS_STATSMODELS`). -/
structure Env where
  hasSklearn : Bool
  hasStatsmodels : Bool
  sinRamp : Nat → List ℚ
  sqrtQ : ℚ → ℚ

/-- `np.std`, via the abstract square root. -/
def stdQ (e : Env) (l : List ℚ) : ℚ := e.sqrtQ (varianceQ l)

/-- `LSTMPredictor._build_sequence_matrix`: binary occurrence matrix,
rows = draws, columns = pool numbers. -/
def buildSequenceMatrix (history : List (List Int)) (size : Nat) : List (List ℚ) :=
  history.map (fun draw =>
    (List.range size).map (fun (k : Nat) => if ((k : Int) + 1) ∈ draw then 1 else 0))

/-- `LSTMPredictor._recent_weighted_profile`: sine-ramp weighted column sums
over the most recent `seqLen` rows, normalized by the weight sum. -/
def recentWeightedProfile (e : Env) (seqLen : Nat) (matrix : List (List ℚ))
    (size : Nat) : List ℚ :=
  let window := matrix.drop (matrix.length - min seqLen matrix.length)
  if window.length = 0 then List.replicate size 0
  else
    let weights := e.sinRamp window.length
    let wsum := weights.sum
    (List.range size).map (fun (j : Nat) =>
      ((window.zip weights).map (fun p => p.1.getD j 0 * p.2)).sum / wsum)

/-- `LSTMPredictor._exponential_memory`: row-by-row EMA, normalized by max. -/
def exponentialMemory (matrix : List (List ℚ)) (size : Nat) (alpha : ℚ) : List ℚ :=
  let ema := matrix.foldl
    (fun ema row =>
      (List.range size).map (fun (j : Nat) => (1 - alpha) * ema.getD j 0 + alpha * row.getD j 0))
    (List.replicate size 0)
  let m := maxD ema 0
  if 0 < m then ema.map (fun x => x / m) else ema

/-- `LSTMPredictor._co_occurrence_scores`: row sums of the symmetric pair
co-occurrence matrix over the last `max(3*seqLen, 30)` draws, normalized. -/
def coOccurrenceScores (history : List (List Int)) (seqLen : Nat) : List ℚ :=
  let window := history.drop (history.length - min (max (seqLen * 3) 30) history.length)
  if window.length = 0 then List.replicate 33 0
  else
    let raw : List ℚ := (List.range 33).map (fun (k : Nat) =>
      let a : Int := (k : Int) + 1
      (window.map (fun draw =>
        let s := draw.dedup.filter (fun b => 1 ≤ b ∧ b ≤ 33)
        if a ∈ s then ((s.length - 1 : Nat) : ℚ) else 0)).sum)
    let m := maxD raw 0
    if 0 < m then raw.map (fun x => x / m) else raw

/-- Stable descending argsort of a score vector, modelling
`np.argsort(-scores)`. -/
def argsortDesc (scores : List ℚ) : List Nat :=
  (List.range scores.length).sortB (fun a b => scores.getD b 0 ≤ scores.getD a 0)

/-- `LSTMPredictor._predict_red_sequence`. -/
def predictRedSequence (e : Env) (seqLen : Nat) (redHist : List (List Int))
    (r : Rng) (i : Nat) : (List Int × List ℚ) × Nat :=
  let matrix := buildSequenceMatrix redHist 33
  if matrix.length = 0 then
    let s := sampleTake r i pool33 6
    ((s.1.sortB intLe, List.replicate 33 0), s.2)
  else
    let recentP := recentWeightedProfile e seqLen matrix 33
    let emaP := exponentialMemory matrix 33 (18 / 100)
    let coP := coOccurrenceScores redHist seqLen
    let combined := (List.range 33).map (fun (j : Nat) =>
      (4 / 10 : ℚ) * recentP.getD j 0 + (3 / 10) * emaP.getD j 0 + (3 / 10) * coP.getD j 0)
    let maxScore := maxD combined 0
    let normalized := if 0 < maxScore then combined.map (fun x => x / maxScore) else combined
    let ranking := ((argsortDesc normalized).take 6).map (fun (j : Nat) => (j : Int) + 1)
    ((ranking.sortB intLe, normalized), i)

/-- `LSTMPredictor._predict_blue_sequence`. -/
def predictBlueSequence (e : Env) (seqLen : Nat) (blueHist : List Int)
    (r : Rng) (i : Nat) : Int × Nat :=
  if blueHist.length < 10 then randInt r i 1 16
  else
    let matrix := buildSequenceMatrix (blueHist.map (fun b => [b])) 16
    let recentP := recentWeightedProfile e seqLen matrix 16
    let emaP := exponentialMemory matrix 16 (25 / 100)
    let combined := (List.range 16).map (fun (j : Nat) =>
      (6 / 10 : ℚ) * recentP.getD j 0 + (4 / 10) * emaP.getD j 0)
    (((argmaxIdx combined : Int) + 1), i)

/-- `LSTMPredictor._calculate_confidence`. -/
def lstmCalcConfidence (e : Env) (profile : List ℚ) (predicted : List Int) : ℚ :=
  if profile.length = 0 ∨ predicted.length = 0 then 50
  else
    let selected := predicted.filterMap (fun n =>
      if 1 ≤ n ∧ n ≤ (profile.length : Int) then some (profile.getD (n - 1).toNat 0) else none)
    if selected.length = 0 then 50
    else
      let avgScore := meanQ selected
      let spread := stdQ e profile
      let stability := max 0 (1 - spread)
      min (52 + avgScore * 25 + stability * 8) 68

/-- `LSTMPredictor.predict` (`sequence_length = 10`). -/
def lstmPredict (e : Env) (hist : List Draw) (datasetSize : Nat) (r : Rng) (i : Nat) :
    PredictionResult × Nat :=
  if hist.length = 0 ∨ hist.length < 30 then generateRandomFallback r i
  else
    let data := hist.take datasetSize
    let redList := extractRedBalls data
    let blueList := extractBlueBalls data
    if redList.length < 30 then generateRandomFallback r i
    else
      let redStep := predictRedSequence e 10 redList r i
      let predictedRed := redStep.1.1
      let profile := redStep.1.2
      let blueStep := predictBlueSequence e 10 blueList r redStep.2
      let confidence := lstmCalcConfidence e profile predictedRed
      let idxScores := predictedRed.filterMap (fun n =>
        if 1 ≤ n ∧ n ≤ (profile.length : Int) then some (profile.getD (n - 1).toNat 0) else none)
      let selectedStrength := if idxScores.length = 0 then 0 else meanQ idxScores
      validatePrediction 68
        { red_balls := predictedRed
          blue_ball := blueStep.1
          confidence := confidence
          metadata := some
            [("model", MetaVal.str "lstm_inspired"),
             ("sequence_length", MetaVal.int 10),
             ("training_samples", MetaVal.int (redList.length : Int)),
             ("signal_strength", MetaVal.rat (roundQ selectedStrength 4))] }
        r blueStep.2

/-! ### Forest generator (`random_forest.py`, ceiling 72, lookback 5) -/

/-- Abstraction of the trained scikit-learn pipeline (`RandomForestClassifier`
inside a `MultiOutputClassifier`): `fitOk` models whether `pipeline.fit`
succeeds, `rawPred` the per-slot class prediction on the latest feature
vector, and `probMaps` the per-slot `predict_proba` class/probability maps.
All are deterministic functions of the training data and query features
(`random_state=42` in the source). -/
structure ForestOracle where
  fitOk : List (List ℚ) → List (List Int) → Bool
  rawPred : List (List ℚ) → List (List Int) → List ℚ → List Int
  probMaps : List (List ℚ) → List (List Int) → List ℚ → List (List (Int × ℚ))

/-- `np.median` of a rational list (sorted middle / mean of middles). -/
def medianQ (l : List ℚ) : ℚ :=
  let s := l.sortB (fun a b => a ≤ b)
  let n := s.length
  if n = 0 then 0
  else if n % 2 = 1 then s.getD (n / 2) 0
  else (s.getD (n / 2 - 1) 0 + s.getD (n / 2) 0) / 2

/-- `RandomForestPredictor._encode_window_features`. -/
def encodeWindowFeatures (e : Env) (window : List (List Int)) : List ℚ :=
  let perDraw := window.flatMap (fun draw =>
    let oneHot : List ℚ := (List.range 33).map (fun (k : Nat) => if ((k : Int) + 1) ∈ draw then 1 else 0)
    let dq : List ℚ := draw.map (fun b => (b : ℚ))
    oneHot ++
      [dq.sum,
       meanQ dq,
       if 1 < dq.length then stdQ e dq else 0,
       medianQ dq,
       if 0 < dq.length then maxD dq (dq.headD 0) - (dq.foldl min (dq.headD 0)) else 0,
       ((draw.filter (fun b => b % 2 = 1)).length : ℚ),
       ((draw.filter (fun b => 16 < b)).length : ℚ)])
  let flattened : List ℚ := (window.flatten).map (fun b => (b : ℚ))
  perDraw ++
    (if flattened.length = 0 then [0, 0, 0, 0]
     else [meanQ flattened, stdQ e flattened,
           maxD flattened (flattened.headD 0), flattened.foldl min (flattened.headD 0)])

/-- `RandomForestPredictor._prepare_training_data`. -/
def prepareTrainingData (e : Env) (lookback : Nat) (redHist : List (List Int)) :
    List (List ℚ) × List (List Int) :=
  let rows := (List.range (redHist.length - lookback)).filterMap (fun j =>
    let idx := lookback + j
    let window := (redHist.drop (idx - lookback)).take lookback
    let target := redHist.getD idx []
    if target.length < 6 then none
    else some (encodeWindowFeatures e window, target.take 6))
  (rows.map (fun p => p.1), rows.map (fun p => p.2))

/-- `RandomForestPredictor._frequency_based_selection`. -/
def frequencyBasedSelection (redHist : List (List Int)) : List Int :=
  let freq := calculateFrequency redHist.flatten 33
  let sortedNums := freq.sortB descBySndNat
  ((sortedNums.take 6).map (fun p => p.1)).sortB intLe

/-- `RandomForestPredictor._aggregate_probabilities`: per-slot probability
maps summed into one full score table over `1..33`. -/
def aggregateProbabilities (maps : List (List (Int × ℚ))) : List (Int × ℚ) :=
  (List.range 33).map (fun (k : Nat) =>
    let n : Int := (k : Int) + 1
    (n, (maps.map (fun m => ((m.filter (fun p => p.1 = n)).map (fun p => p.2)).sum)).sum))

/-- `RandomForestPredictor._select_high_probability_number`. -/
def selectHighProbability (combined : List (Int × ℚ)) (used : List Int)
    (r : Rng) (i : Nat) : Int × Nat :=
  let candidates := combined.sortB descBySnd
  match candidates.find? (fun p => ¬ used.contains p.1) with
  | some p => (p.1, i)
  | none =>
    let remaining := pool33.filter (fun n => ¬ used.contains n)
    if remaining.length = 0 then randInt r i 1 33
    else (remaining.getD (r.seq i % remaining.length) 0, i + 1)

/-- The slot-by-slot selection loop of `_predict_red_balls`: keep an in-range
fresh raw prediction, otherwise substitute the best unused scored number. -/
def forestSelectLoop (combined : List (Int × ℚ)) (r : Rng) :
    List Int → List Int → Nat → List Int × Nat
  | [], acc, i => (acc, i)
  | v :: rest, acc, i =>
    if 1 ≤ v ∧ v ≤ 33 ∧ ¬ acc.contains v then forestSelectLoop combined r rest (acc ++ [v]) i
    else
      let pick := selectHighProbability combined acc r i
      forestSelectLoop combined r rest (acc ++ [pick.1]) pick.2

/-- `RandomForestPredictor._predict_red_balls`. -/
def forestPredictRed (e : Env) (o : ForestOracle) (lookback : Nat)
    (redHist : List (List Int)) (r : Rng) (i : Nat) : (List Int × ℚ) × Nat :=
  let td := prepareTrainingData e lookback redHist
  if td.1.length < 25 then ((frequencyBasedSelection redHist, 45 / 100), i)
  else
    let latestWindow := redHist.drop (redHist.length - lookback)
    let latestFeatures := encodeWindowFeatures e latestWindow
    if ¬ o.fitOk td.1 td.2 then ((frequencyBasedSelection redHist, 45 / 100), i)
    else
      let raw := o.rawPred td.1 td.2 latestFeatures
      let maps := o.probMaps td.1 td.2 latestFeatures
      let slotProbs := (List.range maps.length).map (fun (idx : Nat) =>
        lookupD (maps.getD idx []) (raw.getD idx 0) (0 : ℚ))
      let combined := aggregateProbabilities maps
      let sel := forestSelectLoop combined r raw [] i
      let avgProb := if slotProbs.length = 0 then 45 / 100 else meanQ slotProbs
      (((sel.1.take 6).sortB intLe, avgProb), sel.2)

/-- `RandomForestPredictor._predict_blue_ball`. -/
def forestPredictBlue (blueHist : List Int) (r : Rng) (i : Nat) : Int × Nat :=
  if blueHist.length < 10 then randInt r i 1 16
  else
    let freq := calculateFrequency blueHist 16
    let recent := blueHist.take (min 20 blueHist.length)
    let recentFreq := calculateFrequency recent 16
    let combined := (List.range 16).map (fun (k : Nat) =>
      let n : Int := (k : Int) + 1
      let overallWeight : ℚ :=
        if blueHist.length = 0 then 0 else ((lookupD freq n 0 : Nat) : ℚ) / (blueHist.length : ℚ)
      let recentWeight : ℚ :=
        if recent.length = 0 then 0 else ((lookupD recentFreq n 0 : Nat) : ℚ) / (recent.length : ℚ)
      (n, (4 / 10 : ℚ) * overallWeight + (6 / 10) * recentWeight))
    (argmaxList combined 0, i)

/-- `RandomForestPredictor._fallback_predict` (sklearn unavailable). -/
def forestFallbackPredict (hist : List Draw) (datasetSize : Nat) (r : Rng) (i : Nat) :
    PredictionResult × Nat :=
  if hist.length = 0 then generateRandomFallback r i
  else
    let data := hist.take (min datasetSize hist.length)
    let redList := extractRedBalls data
    let blueList := extractBlueBalls data
    if redList.length = 0 then generateRandomFallback r i
    else
      let predictedRed := frequencyBasedSelection redList
      let blueStep :=
        if blueList.length = 0 then randInt r i 1 16 else forestPredictBlue blueList r i
      ({ red_balls := predictedRed
         blue_ball := blueStep.1
         confidence := 55
         metadata := some
           [("fallback", MetaVal.bool true),
            ("reason", MetaVal.str "sklearn_unavailable")] }, blueStep.2)

/-- `RandomForestPredictor.predict` (`lookback = 5`). -/
def forestPredict (e : Env) (o : ForestOracle) (hist : List Draw) (datasetSize : Nat)
    (r : Rng) (i : Nat) : PredictionResult × Nat :=
  if ¬ e.hasSklearn then forestFallbackPredict hist datasetSize r i
  else if hist.length = 0 ∨ hist.length < 5 + 10 then generateRandomFallback r i
  else
    let data := hist.take datasetSize
    let redList := extractRedBalls data
    let blueList := extractBlueBalls data
    if redList.length < 5 + 10 then forestFallbackPredict hist datasetSize r i
    else
      let redStep := forestPredictRed e o 5 redList r i
      let blueStep := forestPredictBlue blueList r redStep.2
      let confidence :=
        52 + redStep.1.2 * 28 + (min ((redList.length : ℚ) / 400) 1) * 10
      validatePrediction 72
        { red_balls := redStep.1.1
          blue_ball := blueStep.1
          confidence := confidence
          metadata := some
            [("model", MetaVal.str "random_forest"),
             ("lookback", MetaVal.int 5),
             ("training_samples", MetaVal.int (redList.length : Int)),
             ("has_sklearn", MetaVal.bool true),
             ("slot_probability", MetaVal.rat (roundQ redStep.1.2 4))] }
        r blueStep.2

/-! ### Aggregation engine (`ensemble.py`, ceiling 80) -/

/-- The default generator weights of `EnsemblePredictor.__init__`. -/
def defaultWeights : List (String × ℚ) :=
  [("frequency", 20 / 100), ("trend", 25 / 100),
   ("random_forest", 30 / 100), ("lstm", 25 / 100)]

/-- Weight normalization of `EnsemblePredictor.__init__`: a falsy (absent or
empty) caller mapping selects the defaults; the value sum (with `or 1.0`
guarding zero) divides every entry. -/
def weightsOrDefault (w : Option (List (String × ℚ))) : List (String × ℚ) :=
  match w with
  | none => defaultWeights
  | some [] => defaultWeights
  | some l => l

/-- Weight normalization of `EnsemblePredictor.__init__` proper. -/
def initWeights (w : Option (List (String × ℚ))) : List (String × ℚ) :=
  let base := weightsOrDefault w
  let total0 := (base.map (fun p => p.2)).sum
  let total := if total0 = 0 then 1 else total0
  base.map (fun p => (p.1, p.2 / total))

/-- `EnsemblePredictor.update_weights`. -/
def updateWeights (weights : List (String × ℚ)) (metrics : List (String × ℚ)) :
    List (String × ℚ) :=
  if metrics.length = 0 then weights
  else
    let total0 := (metrics.map (fun p => p.2)).sum
    let total := if total0 = 0 then 1 else total0
    metrics.map (fun p => (p.1, p.2 / total))

/-- `EnsemblePredictor._normalize_scores`: min-max normalization; a constant
table maps every entry to `1/len`. -/
def normalizeScores (values : List (Int × ℚ)) : List (Int × ℚ) :=
  if values.length = 0 then []
  else
    let numeric := values.map (fun p => p.2)
    let maxValue := maxD numeric (numeric.headD 0)
    let minValue := numeric.foldl min (numeric.headD 0)
    if maxValue = minValue then values.map (fun p => (p.1, 1 / (values.length : ℚ)))
    else values.map (fun p => (p.1, (p.2 - minValue) / (maxValue - minValue)))

/-- The values a draw contributes to the gap scan (red list, or the singleton
truthy blue value). -/
def gapValues (d : Draw) (isRed : Bool) : List Int :=
  if isRed then d.red_balls
  else
    match d.blue_ball with
    | some b => if b = 0 then [] else [b]
    | none => []

/-- One dict update of the gap scan: record `idx` for a first-seen in-range
number (`gap_map[number] == default_gap` is the not-yet-seen sentinel). -/
def updateGapEntry (m : List (Int × Nat)) (dflt idx : Nat) (rangeMax : Nat)
    (n : Int) : List (Int × Nat) :=
  if 1 ≤ n ∧ n ≤ (rangeMax : Int) ∧ lookupD m n dflt = dflt then
    m.map (fun p => if p.1 = n then (p.1, idx) else p)
  else m

/-- The indexed scan over draws of `_current_gap_scores`. -/
def gapScan (dflt : Nat) (rangeMax : Nat) (isRed : Bool) :
    List Draw → Nat → List (Int × Nat) → List (Int × Nat)
  | [], _, m => m
  | d :: rest, idx, m =>
    gapScan dflt rangeMax isRed rest (idx + 1)
      ((gapValues d isRed).foldl (fun m n => updateGapEntry m dflt idx rangeMax n) m)

/-- `EnsemblePredictor._current_gap_scores`. -/
def currentGapScores (data : List Draw) (rangeMax : Nat) (isRed : Bool) :
    List (Int × ℚ) :=
  if data.length = 0 then (List.range rangeMax).map (fun (k : Nat) => ((k : Int) + 1, 0))
  else
    let defaultGap := data.length
    let init := (List.range rangeMax).map (fun (k : Nat) => ((k : Int) + 1, defaultGap))
    let gapMap := gapScan defaultGap rangeMax isRed data 0 init
    gapMap.map (fun p =>
      (p.1, if defaultGap = 0 then 0 else ((p.2 : ℚ) / (defaultGap : ℚ))))

/-- `EnsemblePredictor._build_vote_scores`: weighted confidence votes for the
predicted primary numbers, then normalized. -/
def buildVoteScores (weights : List (String × ℚ))
    (preds : List (String × PredictionResult)) : List (Int × ℚ) :=
  if preds.length = 0 then (List.range 33).map (fun (k : Nat) => ((k : Int) + 1, 0))
  else
    normalizeScores ((List.range 33).map (fun (k : Nat) =>
      let n : Int := (k : Int) + 1
      (n, (preds.map (fun pr =>
        lookupSD weights pr.1 0 * (pr.2.confidence / 100) *
          ((pr.2.red_balls.count n : Nat) : ℚ))).sum)))

/-- Nat-valued count table as a rational score table (`float()` coercion). -/
def freqAsQ (freq : List (Int × Nat)) : List (Int × ℚ) :=
  freq.map (fun p => (p.1, (p.2 : ℚ)))

/-- `EnsemblePredictor._build_red_probability` (`recent_window = 60`). -/
def buildRedProbability (redHistory : List (List Int)) (data : List Draw) :
    List (Int × ℚ) :=
  let flattened := redHistory.flatten
  let freqNorm := normalizeScores (freqAsQ (calculateFrequency flattened 33))
  let recentWindow := min 60 redHistory.length
  let recentFlat := (redHistory.take recentWindow).flatten
  let recentNorm := normalizeScores (freqAsQ (calculateFrequency recentFlat 33))
  let previousFlat := ((redHistory.drop recentWindow).take recentWindow).flatten
  let previousNorm :=
    if previousFlat.length = 0 then (List.range 33).map (fun (k : Nat) => ((k : Int) + 1, (0 : ℚ)))
    else normalizeScores (freqAsQ (calculateFrequency previousFlat 33))
  let gapScores := currentGapScores data 33 true
  normalizeScores ((List.range 33).map (fun (k : Nat) =>
    let n : Int := (k : Int) + 1
    let momentum := max (lookupD recentNorm n 0 - lookupD previousNorm n 0) 0
    (n, (35 / 100 : ℚ) * lookupD freqNorm n 0
      + (25 / 100) * lookupD recentNorm n 0
      + (20 / 100) * lookupD gapScores n 0
      + (20 / 100) * momentum)))

/-- `EnsemblePredictor._build_blue_probability` (30-draw window). -/
def buildBlueProbability (blueHistory : List Int) (data : List Draw) :
    List (Int × ℚ) :=
  let freqNorm := normalizeScores (freqAsQ (calculateFrequency blueHistory 16))
  let recentWindow := min 30 blueHistory.length
  let recent := blueHistory.take recentWindow
  let previous := (blueHistory.drop recentWindow).take recentWindow
  let recentNorm := normalizeScores (freqAsQ (calculateFrequency recent 16))
  let previousNorm :=
    if previous.length = 0 then (List.range 16).map (fun (k : Nat) => ((k : Int) + 1, (0 : ℚ)))
    else normalizeScores (freqAsQ (calculateFrequency previous 16))
  let gapScores := currentGapScores data 16 false
  normalizeScores ((List.range 16).map (fun (k : Nat) =>
    let n : Int := (k : Int) + 1
    let momentum := max (lookupD recentNorm n 0 - lookupD previousNorm n 0) 0
    (n, (4 / 10 : ℚ) * lookupD freqNorm n 0
      + (3 / 10) * lookupD recentNorm n 0
      + (2 / 10) * lookupD gapScores n 0
      + (1 / 10) * momentum)))

/-- `EnsemblePredictor._build_blue_vote_scores`. -/
def buildBlueVoteScores (weights : List (String × ℚ))
    (preds : List (String × PredictionResult)) : List (Int × ℚ) :=
  if preds.length = 0 then (List.range 16).map (fun (k : Nat) => ((k : Int) + 1, 0))
  else
    normalizeScores ((List.range 16).map (fun (k : Nat) =>
      let n : Int := (k : Int) + 1
      (n, (preds.map (fun pr =>
        if pr.2.blue_ball = n ∧ 1 ≤ pr.2.blue_ball ∧ pr.2.blue_ball ≤ 16 then
          lookupSD weights pr.1 0 * (pr.2.confidence / 100)
        else 0)).sum)))

/-- `EnsemblePredictor._combine_scores`. -/
def combineScores (base vote : List (Int × ℚ)) (baseWeight : ℚ) : List (Int × ℚ) :=
  normalizeScores (base.map (fun p =>
    (p.1, baseWeight * p.2 + (1 - baseWeight) * lookupD vote p.1 0)))

/-- `EnsemblePredictor._group_for_number`: the low/mid/high band. -/
inductive Band where
  | low : Band
  | mid : Band
  | high : Band
deriving DecidableEq

/-- `_group_for_number`. -/
def groupForNumber (n : Int) : Band :=
  if n ≤ 11 then Band.low else if n ≤ 22 then Band.mid else Band.high

/-- Band-capped greedy pass of `_select_numbers_with_distribution` (the
`counts[group] < targets[group]` loop with the length-6 break); the `counts`
dict is a function from band to count. -/
def distGo : List (Int × ℚ) → List Int → (Band → Nat) → List Int
  | [], sel, _ => sel
  | p :: rest, sel, cnt =>
    if cnt (groupForNumber p.1) < 2 then
      if (sel ++ [p.1]).length = 6 then sel ++ [p.1]
      else distGo rest (sel ++ [p.1])
        (fun b => if b = groupForNumber p.1 then cnt (groupForNumber p.1) + 1 else cnt b)
    else
      if sel.length = 6 then sel
      else distGo rest sel cnt

/-- Score-order backfill pass (`if len(selected) < 6`): append fresh numbers
in score order, stopping at 6. -/
def fillGo : List (Int × ℚ) → List Int → List Int
  | [], sel => sel
  | p :: rest, sel =>
    if sel.contains p.1 then
      if sel.length = 6 then sel else fillGo rest sel
    else
      if (sel ++ [p.1]).length = 6 then sel ++ [p.1] else fillGo rest (sel ++ [p.1])

/-- `EnsemblePredictor._select_numbers_with_distribution`. -/
def selectNumbersWithDistribution (scores : List (Int × ℚ)) : List Int :=
  let sortedCandidates := scores.sortB descBySnd
  let selected := distGo sortedCandidates [] (fun _ => 0)
  let selected2 := if selected.length < 6 then fillGo sortedCandidates selected else selected
  (selected2.take 6).sortB intLe

/-- `EnsemblePredictor._describe_top_candidates`. -/
def describeTopCandidates (scores : List (Int × ℚ)) (limit : Nat) : List (Int × ℚ) :=
  ((scores.sortB descBySnd).take limit).map (fun p => (p.1, roundQ p.2 4))

/-- `EnsemblePredictor._agreement_bonus`. -/
def agreementBonusCalc (preds : List (String × PredictionResult))
    (selected : List Int) : ℚ :=
  if preds.length = 0 ∨ selected.length = 0 then 0
  else
    let dups := (selected.dedup.filter (fun n =>
      2 ≤ (preds.map (fun pr => pr.2.red_balls.count n)).sum)).length
    min ((dups : ℚ) * (3 / 2)) 9

/-- `EnsemblePredictor._calculate_ensemble_confidence` (`max_confidence = 80`). -/
def calcEnsembleConfidence (weights : List (String × ℚ))
    (preds : List (String × PredictionResult)) (combined : List (Int × ℚ))
    (selected : List Int) (sampleSize : Nat) : ℚ :=
  let weightedConfidence := (preds.map (fun pr =>
    pr.2.confidence * lookupSD weights pr.1 0)).sum
  let baseAvg :=
    if selected.length = 0 then 0
    else meanQ (selected.map (fun n => lookupD combined n 0))
  let dataFactor := min ((sampleSize : ℚ) / 400) 1
  let bonus := agreementBonusCalc preds selected
  let confidence := weightedConfidence + baseAvg * 30 + dataFactor * 8 + bonus
  min (max confidence 52) 80

/-- `EnsemblePredictor._run_component_predictors`: the four generators in dict
insertion order, sharing the sequential random stream (all four are total
functions here, so none is ever omitted from the vote). -/
def runComponentPredictors (e : Env) (o : ForestOracle) (data : List Draw)
    (datasetSize : Nat) (r : Rng) (i : Nat) :
    List (String × PredictionResult) × Nat :=
  let p1 := freqPredict data datasetSize r i
  let p2 := trendPredict e.hasStatsmodels data datasetSize r p1.2
  let p3 := forestPredict e o data datasetSize r p2.2
  let p4 := lstmPredict e data datasetSize r p3.2
  ([("frequency", p1.1), ("trend", p2.1), ("random_forest", p3.1), ("lstm", p4.1)], p4.2)

/-- `EnsemblePredictor._score_blue_candidates`. -/
def scoreBlueCandidates (weights : List (String × ℚ)) (blueHistory : List Int)
    (preds : List (String × PredictionResult)) (data : List Draw)
    (r : Rng) (i : Nat) : (Int × List (Int × ℚ)) × Nat :=
  if blueHistory.length = 0 then
    let b := randInt r i 1 16
    ((b.1, [(b.1, 1 / 2)]), b.2)
  else
    let base := buildBlueProbability blueHistory data
    let vote := buildBlueVoteScores weights preds
    let combined := combineScores base vote (7 / 10)
    ((argmaxList combined 0, describeTopCandidates combined 5), i)

/-- Metadata rendering of one component prediction. -/
def componentMeta (pr : String × PredictionResult) : String × MetaVal :=
  (pr.1, MetaVal.dict
    [("red_balls", MetaVal.intList pr.2.red_balls),
     ("blue_ball", MetaVal.int pr.2.blue_ball),
     ("confidence", MetaVal.rat pr.2.confidence)])

/-- Metadata rendering of a scored candidate list. -/
def candidatesMeta (l : List (Int × ℚ)) : MetaVal :=
  MetaVal.vlist (l.map (fun p =>
    MetaVal.dict [("number", MetaVal.int p.1), ("score", MetaVal.rat p.2)]))

/-- `EnsemblePredictor.predict` with explicit (already-normalized) weights. -/
def ensemblePredict (e : Env) (o : ForestOracle) (weights : List (String × ℚ))
    (hist : List Draw) (datasetSize : Nat) (r : Rng) (i : Nat) :
    PredictionResult × Nat :=
  if hist.length = 0 then generateRandomFallback r i
  else
    let data := hist.take datasetSize
    let redHistory := extractRedBalls data
    let blueHistory := extractBlueBalls data
    if redHistory.length < 20 then generateRandomFallback r i
    else
      let baseRedScores := buildRedProbability redHistory data
      let comps := runComponentPredictors e o data datasetSize r i
      let voteScores := buildVoteScores weights comps.1
      let combinedRedScores := combineScores baseRedScores voteScores (65 / 100)
      let predictedRed := selectNumbersWithDistribution combinedRedScores
      let blueStep := scoreBlueCandidates weights blueHistory comps.1 data r comps.2
      let confidence := calcEnsembleConfidence weights comps.1 combinedRedScores
        predictedRed redHistory.length
      validatePrediction 80
        { red_balls := predictedRed
          blue_ball := blueStep.1.1
          confidence := confidence
          metadata := some
            [("component_predictions", MetaVal.dict (comps.1.map componentMeta)),
             ("weights", MetaVal.dict (weights.map (fun p => (p.1, MetaVal.rat p.2)))),
             ("algorithms_used", MetaVal.vlist (comps.1.map (fun pr => MetaVal.str pr.1))),
             ("top_candidates", candidatesMeta (describeTopCandidates combinedRedScores 10)),
             ("blue_candidates", candidatesMeta blueStep.1.2),
             ("dataset_coverage", MetaVal.int (redHistory.length : Int))] }
        r blueStep.2

/-! ### Statement-level predicates and fixtures -/

/-- The output contract of every generator: exactly 6 strictly ascending
(hence unique) primary numbers in `[1,33]` and one secondary in `[1,16]`. -/
def WellShaped (p : PredictionResult) : Prop :=
  p.red_balls.length = 6 ∧ p.red_balls.Sorted (· < ·) ∧
  (∀ x ∈ p.red_balls, 1 ≤ x ∧ x ≤ 33) ∧
  1 ≤ p.blue_ball ∧ p.blue_ball ≤ 16

/-- A well-formed historical draw (6 distinct in-range reds, in-range blue). -/
abbrev WellFormedDraw (d : Draw) : Prop :=
  d.red_balls.length = 6 ∧ d.red_balls.Nodup ∧
  (∀ x ∈ d.red_balls, 1 ≤ x ∧ x ≤ 33) ∧
  1 ≤ d.blue_ball.getD 0 ∧ d.blue_ball.getD 0 ≤ 16

/-- The real `np.sin(np.linspace(0, π/2, n))` ramp is pointwise nonnegative;
theorems about the sequence-memory generator assume only this of the
abstracted ramp. -/
def SinRampNonneg (e : Env) : Prop := ∀ n, ∀ w ∈ e.sinRamp n, 0 ≤ w

/-- The real `predict_proba` outputs are probabilities; theorems about the
forest generator assume only nonnegativity (boundedness is not needed). -/
def OracleProbsNonneg (o : ForestOracle) : Prop :=
  ∀ X y f, ∀ m ∈ o.probMaps X y f, ∀ p ∈ m, 0 ≤ p.2

/-- The random-free value of the frequency generator's non-fallback path
(used to state determinism: `predict` returns exactly this whenever it does
not fall back, for every random stream). -/
def freqPredictCore (hist : List Draw) (datasetSize : Nat) : PredictionResult :=
  let data := hist.take datasetSize
  let redList := extractRedBalls data
  let blueList := extractBlueBalls data
  let allRed := redList.flatten
  let redFreq := calculateFrequency allRed 33
  let blueFreq := calculateFrequency blueList 16
  let sortedRed := redFreq.sortB descBySndNat
  let predictedRed := ((sortedRed.take 6).map (fun p => p.1)).sortB intLe
  let sortedBlue := blueFreq.sortB descBySndNat
  let confidence := calculateFrequencyConfidence predictedRed redFreq
  let hc := calculateHotCold redFreq
  { red_balls := dedupSortInts predictedRed
    blue_ball := (sortedBlue.headD (0, 0)).1
    confidence := min confidence 75
    metadata := some
      [("hot_numbers", MetaVal.intList hc.1),
       ("cold_numbers", MetaVal.intList hc.2.1),
       ("neutral_numbers", MetaVal.intList hc.2.2),
       ("top_red_frequency", MetaVal.int (((sortedRed.headD (0, 0)).2 : Int))),
       ("top_blue_frequency", MetaVal.int (((sortedBlue.headD (0, 0)).2 : Int)))] }

/-- Modelled from the spec (claim C5 side): "`overdue_gap_score` is
`(index of first occurrence scanning oldest→newest)/history_length`,
normalized" with never-seen numbers scoring the maximum.  Scanning
oldest→newest means scanning the reverse of the newest-first input list. -/
def gapScoreSpecOldest (data : List Draw) (num : Int) : ℚ :=
  ((data.reverse.findIdx (fun d => decide (num ∈ d.red_balls)) : Nat) : ℚ) /
    (data.length : ℚ)

/-- A well-formed synthetic draw family for concrete fixtures (six pairwise
distinct reds drawn from disjoint bands, blue in range). -/
def fixtureDraw (k : Nat) : Draw :=
  { red_balls :=
      [((k % 5 : Nat) : Int) + 1, ((k % 7 : Nat) : Int) + 7, ((k % 3 : Nat) : Int) + 15,
       ((k % 4 : Nat) : Int) + 19, ((k % 6 : Nat) : Int) + 24, ((k % 2 : Nat) : Int) + 31]
    blue_ball := some (((k % 16 : Nat) : Int) + 1) }

/-- 49 well-formed draws (Scenario B fixture). -/
def hist49 : List Draw := (List.range 49).map fixtureDraw

/-- 19 well-formed draws (Scenario B fixture). -/
def hist19 : List Draw := (List.range 19).map fixtureDraw

/-- Two-draw fixture for the gap-scan direction counterexample: number 5
appears only in the older draw. -/
def gapFixture : List Draw :=
  [{ red_balls := [7, 8, 9, 10, 11, 12], blue_ball := some 3 },
   { red_balls := [5, 6, 9, 10, 11, 12], blue_ball := some 3 }]

/-- A concrete random stream for witnesses. -/
def rngZero : Rng := ⟨fun _ => 0⟩

/-- A concrete environment for witnesses (sklearn present, zero ramp/root). -/
def envFix : Env := ⟨true, true, fun n => List.replicate n 0, fun _ => 0⟩

/-- A concrete classifier oracle for witnesses. -/
def orcFix : ForestOracle := ⟨fun _ _ => true, fun _ _ _ => [], fun _ _ _ => []⟩

/-- How many selected numbers fall in band `b`. -/
def countBand (b : Band) (sel : List Int) : Nat :=
  (sel.filter (fun n => decide (groupForNumber n = b))).length

/-- How many candidate pairs fall in band `b`. -/
def candCount (b : Band) (cands : List (Int × ℚ)) : Nat :=
  (cands.filter (fun p => decide (groupForNumber p.1 = b))).length

/-! ## Lemma layer: sorting, sampling, validation -/

theorem intLe_trans : ∀ a b c : Int, intLe a b → intLe b c → intLe a c := by
  intro a b c hab hbc
  simp only [intLe, decide_eq_true_eq] at *
  omega

theorem intLe_total : ∀ a b : Int, intLe a b || intLe b a := by
  intro a b
  simp only [intLe]
  by_cases h : a ≤ b
  · simp [h]
  · simp [le_of_not_le h]

theorem insertB_perm {α : Type} (r : α → α → Bool) (a : α) :
    ∀ l : List α, List.Perm (List.insertB r a l) (a :: l) := by
  intro l
  induction l with
  | nil => exact List.Perm.refl _
  | cons b l ih =>
    by_cases h : r a b
    · simp only [List.insertB, if_pos h]
      exact List.Perm.refl _
    · simp only [List.insertB, if_neg h]
      exact (ih.cons b).trans (List.Perm.swap a b l)

theorem sortB_perm {α : Type} (l : List α) (r : α → α → Bool) :
    List.Perm (l.sortB r) l := by
  induction l with
  | nil => exact List.Perm.refl _
  | cons a l ih => exact (insertB_perm r a (l.sortB r)).trans (ih.cons a)

theorem length_sortB {α : Type} (l : List α) (r : α → α → Bool) :
    (l.sortB r).length = l.length :=
  (sortB_perm l r).length_eq

theorem mem_sortB {α : Type} {x : α} {l : List α} {r : α → α → Bool} :
    x ∈ l.sortB r ↔ x ∈ l :=
  (sortB_perm l r).mem_iff

theorem nodup_sortB_of_nodup {α : Type} (le : α → α → Bool) (l : List α)
    (h : l.Nodup) : (l.sortB le).Nodup :=
  (sortB_perm l le).nodup_iff.mpr h

theorem pairwise_insertB {α : Type} (r : α → α → Bool)
    (htotal : ∀ x y, r x y || r y x)
    (htrans : ∀ x y z, r x y → r y z → r x z) (a : α) :
    ∀ l : List α, l.Pairwise (fun x y => r x y = true) →
      (List.insertB r a l).Pairwise (fun x y => r x y = true) := by
  intro l
  induction l with
  | nil => intro _; simp [List.insertB]
  | cons b l ih =>
    intro h
    rw [List.pairwise_cons] at h
    by_cases hab : r a b
    · simp only [List.insertB, if_pos hab]
      refine List.pairwise_cons.mpr ⟨?_, List.pairwise_cons.mpr h⟩
      intro x hx
      rcases List.mem_cons.mp hx with hx | hx
      · subst hx; exact hab
      · exact htrans a b x hab (h.1 x hx)
    · simp only [List.insertB, if_neg hab]
      have hba : r b a := by
        have := htotal a b
        rcases Bool.or_eq_true_iff.mp this with h1 | h1
        · exact absurd h1 hab
        · exact h1
      refine List.pairwise_cons.mpr ⟨?_, ih h.2⟩
      intro x hx
      rcases List.mem_cons.mp ((insertB_perm r a l).mem_iff.mp hx) with hx | hx
      · subst hx; exact hba
      · exact h.1 x hx

theorem pairwise_sortB {α : Type} (r : α → α → Bool)
    (htotal : ∀ x y, r x y || r y x)
    (htrans : ∀ x y z, r x y → r y z → r x z) :
    ∀ l : List α, (l.sortB r).Pairwise (fun x y => r x y = true) := by
  intro l
  induction l with
  | nil => simp [List.sortB]
  | cons a l ih => exact pairwise_insertB r htotal htrans a _ ih

theorem sorted_le_sortB_intLe (l : List Int) :
    (l.sortB intLe).Pairwise (· ≤ ·) := by
  have h := pairwise_sortB intLe intLe_total intLe_trans l
  exact h.imp (by intro a b hab; simpa [intLe, decide_eq_true_eq] using hab)

theorem sorted_lt_of_le_nodup (l : List Int) (h1 : l.Pairwise (· ≤ ·))
    (h2 : l.Nodup) : l.Pairwise (· < ·) :=
  (h1.and h2).imp (fun h => lt_of_le_of_ne h.1 h.2)

theorem sorted_lt_sortB_intLe (l : List Int) (h : l.Nodup) :
    (l.sortB intLe).Pairwise (· < ·) :=
  sorted_lt_of_le_nodup _ (sorted_le_sortB_intLe l)
    (nodup_sortB_of_nodup intLe l h)

theorem randInt_bounds (r : Rng) (i : Nat) (lo hi : Int) (h : lo ≤ hi) :
    lo ≤ (randInt r i lo hi).1 ∧ (randInt r i lo hi).1 ≤ hi := by
  have hm : (0 : Int) < hi - lo + 1 := by omega
  have hn : (0 : Int) ≤ (r.seq i : Int) := Int.ofNat_nonneg _
  have h1 := Int.emod_nonneg (r.seq i : Int) (by omega : hi - lo + 1 ≠ 0)
  have h2 := Int.emod_lt_of_pos (r.seq i : Int) hm
  simp only [randInt]
  omega

theorem getD_mem_of_lt {α : Type} (l : List α) (j : Nat) (d : α) (h : j < l.length) :
    l.getD j d ∈ l := by
  rw [List.getD_eq_getElem l d h]
  exact List.getElem_mem h

theorem sampleTake_subset (r : Rng) :
    ∀ (k i : Nat) (pool : List Int), ∀ x ∈ (sampleTake r i pool k).1, x ∈ pool := by
  intro k
  induction k with
  | zero => intro i pool x hx; simp [sampleTake] at hx
  | succ k ih =>
    intro i pool x hx
    by_cases hp : pool.length = 0
    · simp [sampleTake, hp] at hx
    · simp only [sampleTake, hp, if_false, List.mem_cons] at hx
      rcases hx with hx | hx
      · subst hx
        exact getD_mem_of_lt _ _ _ (Nat.mod_lt _ (Nat.pos_of_ne_zero hp))
      · exact (List.erase_sublist _ _).subset (ih _ _ _ hx)

theorem sampleTake_nodup (r : Rng) :
    ∀ (k i : Nat) (pool : List Int), pool.Nodup → (sampleTake r i pool k).1.Nodup := by
  intro k
  induction k with
  | zero => intro i pool _; simp [sampleTake]
  | succ k ih =>
    intro i pool hnd
    by_cases hp : pool.length = 0
    · simp [sampleTake, hp]
    · simp only [sampleTake, hp, if_false]
      refine List.nodup_cons.mpr ⟨fun hmem => ?_, ih _ _ (List.Nodup.erase _ hnd)⟩
      exact hnd.not_mem_erase (sampleTake_subset r k (i + 1) _ _ hmem)

theorem sampleTake_length (r : Rng) :
    ∀ (k i : Nat) (pool : List Int),
      (sampleTake r i pool k).1.length = min k pool.length := by
  intro k
  induction k with
  | zero => intro i pool; simp [sampleTake]
  | succ k ih =>
    intro i pool
    by_cases hp : pool.length = 0
    · simp [sampleTake, hp]
    · have hmem : pool.getD (r.seq i % pool.length) 0 ∈ pool :=
        getD_mem_of_lt _ _ _ (Nat.mod_lt _ (Nat.pos_of_ne_zero hp))
      simp only [sampleTake, hp, if_false, List.length_cons, ih]
      rw [List.length_erase_of_mem hmem]
      omega

theorem pool33_nodup : pool33.Nodup := by decide

theorem mem_pool33 {x : Int} : x ∈ pool33 ↔ 1 ≤ x ∧ x ≤ 33 := by
  constructor
  · intro hx
    obtain ⟨k, hk, rfl⟩ := List.mem_map.mp hx
    have := List.mem_range.mp hk
    omega
  · intro h
    exact List.mem_map.mpr ⟨(x - 1).toNat, List.mem_range.mpr (by omega), by omega⟩

theorem dedupSortInts_nodup (l : List Int) : (dedupSortInts l).Nodup :=
  nodup_sortB_of_nodup intLe l.dedup (List.nodup_dedup l)

theorem mem_dedupSortInts {x : Int} {l : List Int} :
    x ∈ dedupSortInts l ↔ x ∈ l := by
  show x ∈ l.dedup.sortB intLe ↔ x ∈ l
  rw [mem_sortB]
  exact List.mem_dedup

theorem dedupSortInts_sorted_le (l : List Int) :
    (dedupSortInts l).Pairwise (· ≤ ·) :=
  sorted_le_sortB_intLe l.dedup

theorem fillReds_facts (red0 : List Int) (r : Rng) (i : Nat)
    (hnd : red0.Nodup) (hs : red0.Pairwise (· ≤ ·)) :
    (fillReds red0 r i).1.length = 6 ∧
    (fillReds red0 r i).1.Pairwise (· < ·) ∧
    ∀ x ∈ (fillReds red0 r i).1, x ∈ red0 ∨ (1 ≤ x ∧ x ≤ 33) := by
  by_cases hlt : red0.length < 6
  · simp only [fillReds, if_pos hlt]
    have hasub : ∀ x ∈ pool33.filter (fun n => ¬ red0.contains n), x ∉ red0 := by
      intro x hx
      have := (List.mem_filter.mp hx).2
      simpa using this
    have havmem : ∀ x ∈ pool33.filter (fun n => ¬ red0.contains n), x ∈ pool33 :=
      fun x hx => (List.mem_filter.mp hx).1
    have hav_nodup : (pool33.filter (fun n => ¬ red0.contains n)).Nodup :=
      pool33_nodup.filter _
    have hcard : 33 ≤ (pool33.filter (fun n => ¬ red0.contains n)).length + red0.length := by
      have hsub : pool33.toFinset ⊆
          (pool33.filter (fun n => ¬ red0.contains n)).toFinset ∪ red0.toFinset := by
        intro x hx
        rw [List.mem_toFinset] at hx
        by_cases hmem : x ∈ red0
        · exact Finset.mem_union_right _ (List.mem_toFinset.mpr hmem)
        · refine Finset.mem_union_left _ (List.mem_toFinset.mpr ?_)
          refine List.mem_filter.mpr ⟨hx, ?_⟩
          simpa using hmem
      have h1 : pool33.toFinset.card = 33 := by decide
      have h2 := Finset.card_le_card hsub
      have h3 := Finset.card_union_le
        ((pool33.filter (fun n => ¬ red0.contains n)).toFinset) red0.toFinset
      have h4 := List.toFinset_card_le (pool33.filter (fun n => ¬ red0.contains n))
      have h5 := List.toFinset_card_le red0
      omega
    have hperm_len := sampleTake_length r
      (pool33.filter (fun n => ¬ red0.contains n)).length i
      (pool33.filter (fun n => ¬ red0.contains n))
    have htk_len :
        ((sampleTake r i (pool33.filter (fun n => ¬ red0.contains n))
          (pool33.filter (fun n => ¬ red0.contains n)).length).1.take
            (6 - red0.length)).length = 6 - red0.length := by
      rw [List.length_take, hperm_len]
      omega
    have htk_sub : ∀ x ∈ (sampleTake r i (pool33.filter (fun n => ¬ red0.contains n))
        (pool33.filter (fun n => ¬ red0.contains n)).length).1.take (6 - red0.length),
        x ∈ pool33.filter (fun n => ¬ red0.contains n) := by
      intro x hx
      exact sampleTake_subset r _ _ _ _ (List.mem_of_mem_take hx)
    have happ_nodup :
        (red0 ++ (sampleTake r i (pool33.filter (fun n => ¬ red0.contains n))
          (pool33.filter (fun n => ¬ red0.contains n)).length).1.take
            (6 - red0.length)).Nodup := by
      rw [List.nodup_append]
      refine ⟨hnd, (sampleTake_nodup r _ _ _ hav_nodup).sublist
        (List.take_sublist _ _), ?_⟩
      intro a ha hamem
      exact hasub a (htk_sub a hamem) ha
    refine ⟨?_, ?_, ?_⟩
    · rw [length_sortB, List.length_append, htk_len]
      omega
    · exact sorted_lt_sortB_intLe _ happ_nodup
    · intro x hx
      rw [mem_sortB, List.mem_append] at hx
      rcases hx with hx | hx
      · exact Or.inl hx
      · exact Or.inr (mem_pool33.mp (havmem x (htk_sub x hx)))
  · by_cases hgt : 6 < red0.length
    · simp only [fillReds, if_neg hlt, if_pos hgt]
      refine ⟨?_, ?_, ?_⟩
      · rw [List.length_take]; omega
      · exact (sorted_lt_of_le_nodup red0 hs hnd).sublist (List.take_sublist _ _)
      · intro x hx; exact Or.inl (List.mem_of_mem_take hx)
    · simp only [fillReds, if_neg hlt, if_neg hgt]
      refine ⟨by omega, sorted_lt_of_le_nodup red0 hs hnd, fun x hx => Or.inl hx⟩

theorem fixBlue_bounds (b : Int) (r : Rng) (i : Nat) :
    1 ≤ (fixBlue b r i).1 ∧ (fixBlue b r i).1 ≤ 16 := by
  by_cases h : b < 1 ∨ 16 < b
  · simp only [fixBlue, if_pos h]
    exact randInt_bounds r i 1 16 (by norm_num)
  · simp only [fixBlue, if_neg h]
    push_neg at h
    exact h

theorem validatePrediction_facts (mc : ℚ) (res : PredictionResult) (r : Rng) (i : Nat) :
    (validatePrediction mc res r i).1.red_balls.length = 6 ∧
    (validatePrediction mc res r i).1.red_balls.Pairwise (· < ·) ∧
    (∀ x ∈ (validatePrediction mc res r i).1.red_balls,
      x ∈ res.red_balls ∨ (1 ≤ x ∧ x ≤ 33)) ∧
    1 ≤ (validatePrediction mc res r i).1.blue_ball ∧
    (validatePrediction mc res r i).1.blue_ball ≤ 16 ∧
    (validatePrediction mc res r i).1.confidence = min res.confidence mc ∧
    (validatePrediction mc res r i).1.metadata = res.metadata := by
  have hf := fillReds_facts (dedupSortInts res.red_balls) r i
    (dedupSortInts_nodup res.red_balls) (dedupSortInts_sorted_le res.red_balls)
  have hb := fixBlue_bounds res.blue_ball r
    (fillReds (dedupSortInts res.red_balls) r i).2
  refine ⟨hf.1, hf.2.1, ?_, hb.1, hb.2, rfl, rfl⟩
  intro x hx
  rcases hf.2.2 x hx with hx | hx
  · exact Or.inl (mem_dedupSortInts.mp hx)
  · exact Or.inr hx

theorem generateRandomFallback_facts (r : Rng) (i : Nat) :
    WellShaped (generateRandomFallback r i).1 ∧
    (generateRandomFallback r i).1.confidence = 30 ∧
    (generateRandomFallback r i).1.metadata = some [("fallback", MetaVal.bool true)] := by
  have hnd : (sampleTake r i pool33 6).1.Nodup := sampleTake_nodup r 6 i pool33 pool33_nodup
  have hb := randInt_bounds r (sampleTake r i pool33 6).2 1 16 (by norm_num)
  refine ⟨⟨?_, ?_, ?_, hb.1, hb.2⟩, rfl, rfl⟩
  · show ((sampleTake r i pool33 6).1.sortB intLe).length = 6
    rw [length_sortB, sampleTake_length]
    rfl
  · exact sorted_lt_sortB_intLe _ hnd
  · exact fun x hx =>
      mem_pool33.mp (sampleTake_subset r 6 i pool33 x (mem_sortB.mp hx))

/-- Every generator, given the empty history, immediately takes the random
fallback path. -/
theorem freqPredict_nil (n : Nat) (r : Rng) (i : Nat) :
    freqPredict [] n r i = generateRandomFallback r i := rfl

theorem trendPredict_nil (hs : Bool) (n : Nat) (r : Rng) (i : Nat) :
    trendPredict hs [] n r i = generateRandomFallback r i := rfl

theorem lstmPredict_nil (e : Env) (n : Nat) (r : Rng) (i : Nat) :
    lstmPredict e [] n r i = generateRandomFallback r i := rfl

theorem forestPredict_nil (e : Env) (o : ForestOracle) (n : Nat) (r : Rng) (i : Nat) :
    forestPredict e o [] n r i = generateRandomFallback r i := by
  obtain ⟨hs, hst, ramp, sq⟩ := e
  cases hs <;> rfl

theorem ensemblePredict_nil (e : Env) (o : ForestOracle) (w : List (String × ℚ))
    (n : Nat) (r : Rng) (i : Nat) :
    ensemblePredict e o w [] n r i = generateRandomFallback r i := rfl

/-- C2: on empty history every generator returns the validly-shaped random
fallback with confidence exactly 30 and metadata `fallback = true`; since
every `predict` above is a total Lean function, none raises. -/
theorem c2_empty_history_fallback (e : Env) (o : ForestOracle)
    (w : List (String × ℚ)) (n : Nat) (r : Rng) (i : Nat) :
    (WellShaped (freqPredict [] n r i).1 ∧
      (freqPredict [] n r i).1.confidence = 30 ∧
      metaGet (freqPredict [] n r i).1 "fallback" = some (MetaVal.bool true)) ∧
    (WellShaped (trendPredict e.hasStatsmodels [] n r i).1 ∧
      (trendPredict e.hasStatsmodels [] n r i).1.confidence = 30 ∧
      metaGet (trendPredict e.hasStatsmodels [] n r i).1 "fallback"
        = some (MetaVal.bool true)) ∧
    (WellShaped (forestPredict e o [] n r i).1 ∧
      (forestPredict e o [] n r i).1.confidence = 30 ∧
      metaGet (forestPredict e o [] n r i).1 "fallback" = some (MetaVal.bool true)) ∧
    (WellShaped (lstmPredict e [] n r i).1 ∧
      (lstmPredict e [] n r i).1.confidence = 30 ∧
      metaGet (lstmPredict e [] n r i).1 "fallback" = some (MetaVal.bool true)) ∧
    (WellShaped (ensemblePredict e o w [] n r i).1 ∧
      (ensemblePredict e o w [] n r i).1.confidence = 30 ∧
      metaGet (ensemblePredict e o w [] n r i).1 "fallback" = some (MetaVal.bool true)) := by
  have hfb := generateRandomFallback_facts r i
  have hmeta : metaGet (generateRandomFallback r i).1 "fallback"
      = some (MetaVal.bool true) := by
    simp [metaGet, hfb.2.2, List.lookup]
  refine ⟨?_, ?_, ?_, ?_, ?_⟩
  · rw [freqPredict_nil]; exact ⟨hfb.1, hfb.2.1, hmeta⟩
  · rw [trendPredict_nil]; exact ⟨hfb.1, hfb.2.1, hmeta⟩
  · rw [forestPredict_nil]; exact ⟨hfb.1, hfb.2.1, hmeta⟩
  · rw [lstmPredict_nil]; exact ⟨hfb.1, hfb.2.1, hmeta⟩
  · rw [ensemblePredict_nil]; exact ⟨hfb.1, hfb.2.1, hmeta⟩

/-- C10: for every input whatsoever, `validate_prediction` returns exactly 6
distinct reds sorted strictly ascending, a blue in `[1,16]`, and confidence
at most the generator's ceiling, and never raises (it is a total function);
but an out-of-range red in the input can survive to the output — witnessed
by the input `[0,1,2,3,4,5]`, which is returned verbatim, `0 ∉ [1,33]`. -/
theorem c10_validator_contract (mc : ℚ) (res : PredictionResult) (r : Rng) (i : Nat) :
    ((validatePrediction mc res r i).1.red_balls.length = 6 ∧
     (validatePrediction mc res r i).1.red_balls.Pairwise (· < ·) ∧
     1 ≤ (validatePrediction mc res r i).1.blue_ball ∧
     (validatePrediction mc res r i).1.blue_ball ≤ 16 ∧
     (validatePrediction mc res r i).1.confidence ≤ mc) ∧
    (validatePrediction 75 ⟨[0, 1, 2, 3, 4, 5], 5, 50, none⟩ r i).1.red_balls
      = [0, 1, 2, 3, 4, 5] := by
  have h := validatePrediction_facts mc res r i
  have hded : dedupSortInts [0, 1, 2, 3, 4, 5] = [0, 1, 2, 3, 4, 5] := by decide
  refine ⟨⟨h.1, h.2.1, h.2.2.2.1, h.2.2.2.2.1, ?_⟩, ?_⟩
  · rw [h.2.2.2.2.2.1]
    exact min_le_right _ _
  · show (fillReds (dedupSortInts [0, 1, 2, 3, 4, 5]) r i).1 = [0, 1, 2, 3, 4, 5]
    rw [hded]
    rfl

/-! ## C1: output shape of every generator -/

theorem key_bounds_of_mem_rangeMap {β : Type} {m : Nat} {g : Nat → Int × β}
    (hg : ∀ k, (g k).1 = (k : Int) + 1) :
    ∀ p ∈ (List.range m).map g, 1 ≤ p.1 ∧ p.1 ≤ (m : Int) := by
  intro p hp
  obtain ⟨k, hk, rfl⟩ := List.mem_map.mp hp
  have h2 := List.mem_range.mp hk
  rw [hg k]
  omega

theorem calculateFrequency_key_bounds (nums : List Int) (m : Nat) :
    ∀ p ∈ calculateFrequency nums m, 1 ≤ p.1 ∧ p.1 ≤ (m : Int) := by
  intro p hp
  obtain ⟨k, hk, rfl⟩ := List.mem_map.mp hp
  have h2 := List.mem_range.mp hk
  show 1 ≤ (k : Int) + 1 ∧ (k : Int) + 1 ≤ (m : Int)
  omega

theorem wellShaped_validate (mc conf : ℚ) (reds : List Int) (blue : Int)
    (md : Option (List (String × MetaVal))) (r : Rng) (i : Nat)
    (hin : ∀ x ∈ reds, 1 ≤ x ∧ x ≤ 33) :
    WellShaped (validatePrediction mc ⟨reds, blue, conf, md⟩ r i).1 := by
  have hv := validatePrediction_facts mc ⟨reds, blue, conf, md⟩ r i
  refine ⟨hv.1, hv.2.1, ?_, hv.2.2.2.1, hv.2.2.2.2.1⟩
  intro x hx
  rcases hv.2.2.1 x hx with h | h
  · exact hin x h
  · exact h

theorem freqPredict_wellShaped (hist : List Draw) (n : Nat) (r : Rng) (i : Nat) :
    WellShaped (freqPredict hist n r i).1 := by
  by_cases h0 : hist.length = 0
  · simp only [freqPredict, if_pos h0]
    exact (generateRandomFallback_facts r i).1
  · by_cases h1 : (extractRedBalls (hist.take n)).length = 0
    · simp only [freqPredict, if_neg h0, if_pos h1]
      exact (generateRandomFallback_facts r i).1
    · simp only [freqPredict, if_neg h0, if_neg h1]
      apply wellShaped_validate
      intro x hx
      rw [mem_sortB] at hx
      obtain ⟨p, hp, rfl⟩ := List.mem_map.mp hx
      have hmem := mem_sortB.mp (List.mem_of_mem_take hp)
      have := calculateFrequency_key_bounds _ 33 p hmem
      omega

theorem calculateTrendScores_key_bounds (redHist : List (List Int)) (m : Nat) :
    ∀ p ∈ calculateTrendScores redHist m, 1 ≤ p.1 ∧ p.1 ≤ (m : Int) := by
  intro p hp
  obtain ⟨k, hk, rfl⟩ := List.mem_map.mp hp
  have h2 := List.mem_range.mp hk
  show 1 ≤ (k : Int) + 1 ∧ (k : Int) + 1 ≤ (m : Int)
  omega

theorem trendPredict_wellShaped (hs : Bool) (hist : List Draw) (n : Nat)
    (r : Rng) (i : Nat) : WellShaped (trendPredict hs hist n r i).1 := by
  by_cases h0 : hist.length = 0 ∨ hist.length < 30
  · simp only [trendPredict, if_pos h0]
    exact (generateRandomFallback_facts r i).1
  · by_cases h1 : (extractRedBalls (hist.take n)).length = 0 ∨
        (extractRedBalls (hist.take n)).length < 30
    · simp only [trendPredict, if_neg h0, if_pos h1]
      exact (generateRandomFallback_facts r i).1
    · simp only [trendPredict, if_neg h0, if_neg h1]
      apply wellShaped_validate
      intro x hx
      rw [mem_sortB] at hx
      obtain ⟨p, hp, rfl⟩ := List.mem_map.mp hx
      have hmem := mem_sortB.mp (List.mem_of_mem_take hp)
      have := calculateTrendScores_key_bounds _ 33 p hmem
      omega

theorem mem_argsortDesc {scores : List ℚ} {j : Nat} (h : j ∈ argsortDesc scores) :
    j < scores.length :=
  List.mem_range.mp (mem_sortB.mp h)

theorem predictRedSequence_mem (e : Env) (seqLen : Nat) (redHist : List (List Int))
    (r : Rng) (i : Nat) :
    ∀ x ∈ (predictRedSequence e seqLen redHist r i).1.1, 1 ≤ x ∧ x ≤ 33 := by
  by_cases hm : (buildSequenceMatrix redHist 33).length = 0
  · simp only [predictRedSequence, if_pos hm]
    intro x hx
    exact mem_pool33.mp (sampleTake_subset r 6 i pool33 x (mem_sortB.mp hx))
  · simp only [predictRedSequence, if_neg hm]
    intro x hx
    rw [mem_sortB] at hx
    obtain ⟨j, hj, rfl⟩ := List.mem_map.mp hx
    have hlt := mem_argsortDesc (List.mem_of_mem_take hj)
    simp only [apply_ite List.length, List.length_map, List.length_range, ite_self] at hlt
    omega

theorem lstmPredict_wellShaped (e : Env) (hist : List Draw) (n : Nat)
    (r : Rng) (i : Nat) : WellShaped (lstmPredict e hist n r i).1 := by
  by_cases h0 : hist.length = 0 ∨ hist.length < 30
  · simp only [lstmPredict, if_pos h0]
    exact (generateRandomFallback_facts r i).1
  · by_cases h1 : (extractRedBalls (hist.take n)).length < 30
    · simp only [lstmPredict, if_neg h0, if_pos h1]
      exact (generateRandomFallback_facts r i).1
    · simp only [lstmPredict, if_neg h0, if_neg h1]
      apply wellShaped_validate
      exact predictRedSequence_mem e 10 (extractRedBalls (hist.take n)) r i

theorem aggregateProbabilities_key_bounds (maps : List (List (Int × ℚ))) :
    ∀ p ∈ aggregateProbabilities maps, 1 ≤ p.1 ∧ p.1 ≤ 33 := by
  intro p hp
  obtain ⟨k, hk, rfl⟩ := List.mem_map.mp hp
  have h2 := List.mem_range.mp hk
  show 1 ≤ (k : Int) + 1 ∧ (k : Int) + 1 ≤ 33
  omega

theorem selectHighProbability_bounds (combined : List (Int × ℚ))
    (hc : ∀ p ∈ combined, 1 ≤ p.1 ∧ p.1 ≤ 33) (used : List Int) (r : Rng) (i : Nat) :
    1 ≤ (selectHighProbability combined used r i).1 ∧
      (selectHighProbability combined used r i).1 ≤ 33 := by
  simp only [selectHighProbability]
  cases hfind : (combined.sortB descBySnd).find? (fun p => ¬ used.contains p.1) with
  | some p =>
    have hmem := mem_sortB.mp (List.mem_of_find?_eq_some hfind)
    exact hc p hmem
  | none =>
    by_cases hrem : (pool33.filter (fun n => ¬ used.contains n)).length = 0
    · simp only [if_pos hrem]
      exact randInt_bounds r i 1 33 (by norm_num)
    · simp only [if_neg hrem]
      have hmem : (pool33.filter (fun n => ¬ used.contains n)).getD
          (r.seq i % (pool33.filter (fun n => ¬ used.contains n)).length) 0
          ∈ pool33.filter (fun n => ¬ used.contains n) :=
        getD_mem_of_lt _ _ _ (Nat.mod_lt _ (Nat.pos_of_ne_zero hrem))
      exact mem_pool33.mp (List.mem_of_mem_filter hmem)

theorem forestSelectLoop_mem (combined : List (Int × ℚ)) (r : Rng)
    (hc : ∀ p ∈ combined, 1 ≤ p.1 ∧ p.1 ≤ 33) :
    ∀ (raw acc : List Int) (i : Nat), (∀ x ∈ acc, 1 ≤ x ∧ x ≤ 33) →
      ∀ x ∈ (forestSelectLoop combined r raw acc i).1, 1 ≤ x ∧ x ≤ 33 := by
  intro raw
  induction raw with
  | nil => intro acc i hacc x hx; exact hacc x hx
  | cons v rest ih =>
    intro acc i hacc x hx
    by_cases hv : 1 ≤ v ∧ v ≤ 33 ∧ ¬ acc.contains v
    · simp only [forestSelectLoop, if_pos hv] at hx
      refine ih (acc ++ [v]) i ?_ x hx
      intro y hy
      rcases List.mem_append.mp hy with hy | hy
      · exact hacc y hy
      · rw [List.mem_singleton.mp hy]
        exact ⟨hv.1, hv.2.1⟩
    · simp only [forestSelectLoop, if_neg hv] at hx
      have hsel := selectHighProbability_bounds combined hc acc r i
      refine ih _ _ ?_ x hx
      intro y hy
      rcases List.mem_append.mp hy with hy | hy
      · exact hacc y hy
      · rw [List.mem_singleton.mp hy]
        exact hsel

theorem frequencyBasedSelection_mem (redHist : List (List Int)) :
    ∀ x ∈ frequencyBasedSelection redHist, 1 ≤ x ∧ x ≤ 33 := by
  intro x hx
  rw [frequencyBasedSelection] at hx
  rw [mem_sortB] at hx
  obtain ⟨p, hp, rfl⟩ := List.mem_map.mp hx
  have hmem := mem_sortB.mp (List.mem_of_mem_take hp)
  have := calculateFrequency_key_bounds redHist.flatten 33 p hmem
  omega

theorem forestPredictRed_mem (e : Env) (o : ForestOracle) (lb : Nat)
    (redHist : List (List Int)) (r : Rng) (i : Nat) :
    ∀ x ∈ (forestPredictRed e o lb redHist r i).1.1, 1 ≤ x ∧ x ≤ 33 := by
  by_cases h25 : (prepareTrainingData e lb redHist).1.length < 25
  · simp only [forestPredictRed, if_pos h25]
    exact frequencyBasedSelection_mem redHist
  · by_cases hfit : ¬ o.fitOk (prepareTrainingData e lb redHist).1
        (prepareTrainingData e lb redHist).2
    · simp only [forestPredictRed, if_neg h25, if_pos hfit]
      exact frequencyBasedSelection_mem redHist
    · simp only [forestPredictRed, if_neg h25, if_neg hfit]
      intro x hx
      rw [mem_sortB] at hx
      have hmem := List.mem_of_mem_take hx
      exact forestSelectLoop_mem _ r (aggregateProbabilities_key_bounds _) _ [] i
        (by intro y hy; cases hy) x hmem

theorem argmaxList_mem (l : List (Int × ℚ)) (dflt : Int) (h : l ≠ []) :
    ∃ p ∈ l, argmaxList l dflt = p.1 := by
  match l, h with
  | p0 :: rest, _ =>
    simp only [argmaxList]
    have key : ∀ (rest : List (Int × ℚ)) (q0 : Int × ℚ),
        rest.foldl (fun best q => if best.2 < q.2 then q else best) q0
          ∈ q0 :: rest := by
      intro rest
      induction rest with
      | nil => intro q0; exact List.mem_singleton.mpr rfl
      | cons q rest ih =>
        intro q0
        simp only [List.foldl_cons]
        rcases List.mem_cons.mp (ih (if q0.2 < q.2 then q else q0)) with h | h
        · rw [h]
          by_cases hq : q0.2 < q.2
          · rw [if_pos hq]
            exact List.mem_cons_of_mem _ (List.mem_cons_self _ _)
          · rw [if_neg hq]
            exact List.mem_cons_self _ _
        · exact List.mem_cons_of_mem _ (List.mem_cons_of_mem _ h)
    exact ⟨_, key rest p0, rfl⟩

theorem forestPredictBlue_bounds (blueHist : List Int) (r : Rng) (i : Nat) :
    1 ≤ (forestPredictBlue blueHist r i).1 ∧ (forestPredictBlue blueHist r i).1 ≤ 16 := by
  by_cases h10 : blueHist.length < 10
  · simp only [forestPredictBlue, if_pos h10]
    exact randInt_bounds r i 1 16 (by norm_num)
  · simp only [forestPredictBlue, if_neg h10]
    have hne : ((List.range 16).map (fun (k : Nat) =>
        ((k : Int) + 1,
          (4 / 10 : ℚ) * (if blueHist.length = 0 then 0
            else ((lookupD (calculateFrequency blueHist 16) ((k : Int) + 1) 0 : Nat) : ℚ)
              / (blueHist.length : ℚ))
          + (6 / 10) * (if (blueHist.take (min 20 blueHist.length)).length = 0 then 0
            else ((lookupD (calculateFrequency (blueHist.take (min 20 blueHist.length)) 16)
                ((k : Int) + 1) 0 : Nat) : ℚ)
              / ((blueHist.take (min 20 blueHist.length)).length : ℚ)))) : List (Int × ℚ))
        ≠ [] := by
      simp
    obtain ⟨p, hp, he⟩ := argmaxList_mem _ 0 hne
    rw [he]
    obtain ⟨k, hk, rfl⟩ := List.mem_map.mp hp
    have h2 := List.mem_range.mp hk
    show 1 ≤ (k : Int) + 1 ∧ (k : Int) + 1 ≤ 16
    omega

theorem rangeKeys_nodup (m : Nat) :
    ((List.range m).map (fun (k : Nat) => (k : Int) + 1)).Nodup :=
  List.Nodup.map (fun a b hab => by omega) (List.nodup_range m)

theorem calculateFrequency_keys (nums : List Int) (m : Nat) :
    (calculateFrequency nums m).map Prod.fst
      = (List.range m).map (fun (k : Nat) => (k : Int) + 1) := by
  simp only [calculateFrequency, List.map_map]
  rfl

theorem calculateFrequency_length (nums : List Int) (m : Nat) :
    (calculateFrequency nums m).length = m := by
  simp [calculateFrequency]

/-- Shape facts for the pattern `sorted(top-6 keys of a sorted score table)`
shared by the frequency path and the forest frequency fallback. -/
theorem topSel_facts (tbl : List (Int × Nat)) (le : Int × Nat → Int × Nat → Bool)
    (hnd : (tbl.map Prod.fst).Nodup) (hlen : 6 ≤ tbl.length)
    (hkeys : ∀ p ∈ tbl, 1 ≤ p.1 ∧ p.1 ≤ 33) :
    ((((tbl.sortB le).take 6).map (fun p => p.1)).sortB intLe).length = 6 ∧
    ((((tbl.sortB le).take 6).map (fun p => p.1)).sortB intLe).Pairwise (· < ·) ∧
    ∀ x ∈ (((tbl.sortB le).take 6).map (fun p => p.1)).sortB intLe,
      1 ≤ x ∧ x ≤ 33 := by
  have hnd2 : (((tbl.sortB le).take 6).map (fun p => p.1)).Nodup := by
    have hperm : (((tbl.sortB le).map Prod.fst)).Nodup :=
      ((sortB_perm tbl le).map Prod.fst).nodup_iff.mpr hnd
    have hsub : (((tbl.sortB le).take 6).map Prod.fst).Sublist
        ((tbl.sortB le).map Prod.fst) :=
      (List.take_sublist _ _).map Prod.fst
    exact hperm.sublist hsub
  refine ⟨?_, sorted_lt_sortB_intLe _ hnd2, ?_⟩
  · rw [length_sortB, List.length_map, List.length_take, length_sortB]
    omega
  · intro x hx
    rw [mem_sortB] at hx
    obtain ⟨p, hp, rfl⟩ := List.mem_map.mp hx
    exact hkeys p (mem_sortB.mp (List.mem_of_mem_take hp))

theorem frequencyBasedSelection_facts (redHist : List (List Int)) :
    (frequencyBasedSelection redHist).length = 6 ∧
    (frequencyBasedSelection redHist).Pairwise (· < ·) ∧
    ∀ x ∈ frequencyBasedSelection redHist, 1 ≤ x ∧ x ≤ 33 := by
  have h := topSel_facts (calculateFrequency redHist.flatten 33) descBySndNat
    (by rw [calculateFrequency_keys]; exact rangeKeys_nodup 33)
    (by rw [calculateFrequency_length]; omega)
    (by intro p hp; have := calculateFrequency_key_bounds redHist.flatten 33 p hp; omega)
  exact h

theorem wellShaped_mk (reds : List Int) (blue : Int) (conf : ℚ)
    (md : Option (List (String × MetaVal)))
    (h1 : reds.length = 6) (h2 : reds.Pairwise (· < ·))
    (h3 : ∀ x ∈ reds, 1 ≤ x ∧ x ≤ 33) (h4 : 1 ≤ blue) (h5 : blue ≤ 16) :
    WellShaped ⟨reds, blue, conf, md⟩ :=
  ⟨h1, h2, h3, h4, h5⟩

theorem forestFallbackPredict_wellShaped (hist : List Draw) (n : Nat)
    (r : Rng) (i : Nat) : WellShaped (forestFallbackPredict hist n r i).1 := by
  by_cases h0 : hist.length = 0
  · simp only [forestFallbackPredict, if_pos h0]
    exact (generateRandomFallback_facts r i).1
  · by_cases h1 : (extractRedBalls (hist.take (min n hist.length))).length = 0
    · simp only [forestFallbackPredict, if_neg h0, if_pos h1]
      exact (generateRandomFallback_facts r i).1
    · simp only [forestFallbackPredict, if_neg h0, if_neg h1]
      apply wellShaped_mk
      · exact (frequencyBasedSelection_facts _).1
      · exact (frequencyBasedSelection_facts _).2.1
      · exact (frequencyBasedSelection_facts _).2.2
      · split
        · exact (randInt_bounds r i 1 16 (by norm_num)).1
        · exact (forestPredictBlue_bounds _ r i).1
      · split
        · exact (randInt_bounds r i 1 16 (by norm_num)).2
        · exact (forestPredictBlue_bounds _ r i).2

theorem forestPredict_wellShaped (e : Env) (o : ForestOracle) (hist : List Draw)
    (n : Nat) (r : Rng) (i : Nat) : WellShaped (forestPredict e o hist n r i).1 := by
  by_cases hsk : ¬ e.hasSklearn
  · simp only [forestPredict, if_pos hsk]
    exact forestFallbackPredict_wellShaped hist n r i
  · by_cases h0 : hist.length = 0 ∨ hist.length < 5 + 10
    · simp only [forestPredict, if_neg hsk, if_pos h0]
      exact (generateRandomFallback_facts r i).1
    · by_cases h1 : (extractRedBalls (hist.take n)).length < 5 + 10
      · simp only [forestPredict, if_neg hsk, if_neg h0, if_pos h1]
        exact forestFallbackPredict_wellShaped hist n r i
      · simp only [forestPredict, if_neg hsk, if_neg h0, if_neg h1]
        apply wellShaped_validate
        exact forestPredictRed_mem e o 5 (extractRedBalls (hist.take n)) r i

theorem map_fst_keyMap (l : List (Int × ℚ)) (g : Int × ℚ → ℚ) :
    (l.map (fun p => (p.1, g p))).map Prod.fst = l.map Prod.fst := by
  rw [List.map_map]
  rfl

theorem normalizeScores_keys (l : List (Int × ℚ)) :
    (normalizeScores l).map Prod.fst = l.map Prod.fst := by
  by_cases h : l.length = 0
  · rw [List.length_eq_zero] at h
    subst h
    rfl
  · simp only [normalizeScores, if_neg h]
    split
    · exact map_fst_keyMap l _
    · exact map_fst_keyMap l _

theorem combineScores_keys (b v : List (Int × ℚ)) (w : ℚ) :
    (combineScores b v w).map Prod.fst = b.map Prod.fst := by
  simp only [combineScores]
  rw [normalizeScores_keys]
  exact map_fst_keyMap b _

theorem buildRedProbability_keys (rh : List (List Int)) (data : List Draw) :
    (buildRedProbability rh data).map Prod.fst = pool33 := by
  simp only [buildRedProbability]
  rw [normalizeScores_keys, List.map_map]
  rfl

theorem distGo_mem :
    ∀ (cands : List (Int × ℚ)) (sel : List Int) (cnt : Band → Nat),
      ∀ x ∈ distGo cands sel cnt, x ∈ sel ∨ x ∈ cands.map Prod.fst := by
  intro cands
  induction cands with
  | nil => intro sel cnt x hx; exact Or.inl hx
  | cons p rest ih =>
    intro sel cnt x hx
    simp only [distGo] at hx
    by_cases hc2 : cnt (groupForNumber p.1) < 2
    · simp only [if_pos hc2] at hx
      by_cases hlen : (sel ++ [p.1]).length = 6
      · simp only [if_pos hlen] at hx
        rcases List.mem_append.mp hx with hx | hx
        · exact Or.inl hx
        · exact Or.inr (List.mem_map.mpr ⟨p, List.mem_cons_self _ _,
            (List.mem_singleton.mp hx).symm⟩)
      · simp only [if_neg hlen] at hx
        rcases ih _ _ x hx with hx | hx
        · rcases List.mem_append.mp hx with hx | hx
          · exact Or.inl hx
          · exact Or.inr (List.mem_map.mpr ⟨p, List.mem_cons_self _ _,
              (List.mem_singleton.mp hx).symm⟩)
        · exact Or.inr (List.mem_cons_of_mem _ hx)
    · simp only [if_neg hc2] at hx
      by_cases hlen : sel.length = 6
      · simp only [if_pos hlen] at hx
        exact Or.inl hx
      · simp only [if_neg hlen] at hx
        rcases ih _ _ x hx with hx | hx
        · exact Or.inl hx
        · exact Or.inr (List.mem_cons_of_mem _ hx)

theorem fillGo_mem :
    ∀ (cands : List (Int × ℚ)) (sel : List Int),
      ∀ x ∈ fillGo cands sel, x ∈ sel ∨ x ∈ cands.map Prod.fst := by
  intro cands
  induction cands with
  | nil => intro sel x hx; exact Or.inl hx
  | cons p rest ih =>
    intro sel x hx
    simp only [fillGo] at hx
    by_cases hc : sel.contains p.1
    · simp only [if_pos hc] at hx
      by_cases hlen : sel.length = 6
      · simp only [if_pos hlen] at hx
        exact Or.inl hx
      · simp only [if_neg hlen] at hx
        rcases ih _ x hx with hx | hx
        · exact Or.inl hx
        · exact Or.inr (List.mem_cons_of_mem _ hx)
    · simp only [if_neg hc] at hx
      by_cases hlen : (sel ++ [p.1]).length = 6
      · simp only [if_pos hlen] at hx
        rcases List.mem_append.mp hx with hx | hx
        · exact Or.inl hx
        · exact Or.inr (List.mem_map.mpr ⟨p, List.mem_cons_self _ _,
            (List.mem_singleton.mp hx).symm⟩)
      · simp only [if_neg hlen] at hx
        rcases ih _ x hx with hx | hx
        · rcases List.mem_append.mp hx with hx | hx
          · exact Or.inl hx
          · exact Or.inr (List.mem_map.mpr ⟨p, List.mem_cons_self _ _,
              (List.mem_singleton.mp hx).symm⟩)
        · exact Or.inr (List.mem_cons_of_mem _ hx)

theorem selectNumbersWithDistribution_mem (scores : List (Int × ℚ)) :
    ∀ x ∈ selectNumbersWithDistribution scores, x ∈ scores.map Prod.fst := by
  intro x hx
  simp only [selectNumbersWithDistribution] at hx
  rw [mem_sortB] at hx
  have hx2 := List.mem_of_mem_take hx
  have hkey : ∀ y, y ∈ (scores.sortB descBySnd).map Prod.fst → y ∈ scores.map Prod.fst := by
    intro y hy
    obtain ⟨p, hp, rfl⟩ := List.mem_map.mp hy
    exact List.mem_map.mpr ⟨p, mem_sortB.mp hp, rfl⟩
  split at hx2
  · rcases fillGo_mem _ _ x hx2 with hx3 | hx3
    · rcases distGo_mem _ _ _ x hx3 with hx4 | hx4
      · cases hx4
      · exact hkey x hx4
    · exact hkey x hx3
  · rcases distGo_mem _ _ _ x hx2 with hx3 | hx3
    · cases hx3
    · exact hkey x hx3

theorem ensemblePredict_wellShaped (e : Env) (o : ForestOracle)
    (w : List (String × ℚ)) (hist : List Draw) (n : Nat) (r : Rng) (i : Nat) :
    WellShaped (ensemblePredict e o w hist n r i).1 := by
  by_cases h0 : hist.length = 0
  · simp only [ensemblePredict, if_pos h0]
    exact (generateRandomFallback_facts r i).1
  · by_cases h1 : (extractRedBalls (hist.take n)).length < 20
    · simp only [ensemblePredict, if_pos h1, if_neg h0]
      exact (generateRandomFallback_facts r i).1
    · simp only [ensemblePredict, if_neg h0, if_neg h1]
      apply wellShaped_validate
      intro x hx
      have hmem := selectNumbersWithDistribution_mem _ x hx
      rw [combineScores_keys, buildRedProbability_keys] at hmem
      exact mem_pool33.mp hmem

/-- C1: every generator (frequency, trend, forest, sequence-memory, ensemble),
on every input history (and for every random stream, environment, classifier
oracle and weight table), returns exactly 6 unique primary numbers in
`[1,33]` sorted (strictly) ascending and one secondary number in `[1,16]` —
`WellShaped` states precisely that. -/
theorem c1_all_generators_shape (e : Env) (o : ForestOracle)
    (w : List (String × ℚ)) (hist : List Draw) (n : Nat) (r : Rng) (i : Nat) :
    WellShaped (freqPredict hist n r i).1 ∧
    WellShaped (trendPredict e.hasStatsmodels hist n r i).1 ∧
    WellShaped (forestPredict e o hist n r i).1 ∧
    WellShaped (lstmPredict e hist n r i).1 ∧
    WellShaped (ensemblePredict e o w hist n r i).1 :=
  ⟨freqPredict_wellShaped hist n r i,
   trendPredict_wellShaped e.hasStatsmodels hist n r i,
   forestPredict_wellShaped e o hist n r i,
   lstmPredict_wellShaped e hist n r i,
   ensemblePredict_wellShaped e o w hist n r i⟩

/-! ## C5: the gap scan runs over the list in newest-first order -/

theorem lookup_map_setKey (m : List (Int × Nat)) (tgt : Int) (idx : Nat) (num : Int)
    (h : num ≠ tgt) :
    (m.map (fun p => if p.1 = tgt then (p.1, idx) else p)).lookup num = m.lookup num := by
  induction m with
  | nil => rfl
  | cons q t ih =>
    simp only [List.map_cons]
    by_cases hq : num = q.1
    · have hqt : ¬ (q.1 = tgt) := fun hh => h (hq ▸ hh)
      rw [if_neg hqt]
      simp [List.lookup, beq_iff_eq.mpr hq]
    · by_cases ht : q.1 = tgt
      · rw [if_pos ht]
        simp [List.lookup, beq_eq_false_iff_ne.mpr hq, ih]
      · rw [if_neg ht]
        simp [List.lookup, beq_eq_false_iff_ne.mpr hq, ih]

theorem lookup_map_applyVal {β γ : Type} (m : List (Int × β)) (f : β → γ) (num : Int) :
    (m.map (fun p => (p.1, f p.2))).lookup num = (m.lookup num).map f := by
  induction m with
  | nil => rfl
  | cons q t ih =>
    by_cases hq : num = q.1
    · simp [List.lookup, beq_iff_eq.mpr hq]
    · simp [List.lookup, beq_eq_false_iff_ne.mpr hq, ih]

theorem updateGapEntry_lookup_other (m : List (Int × Nat)) (dflt idx rm : Nat)
    (tgt num : Int) (h : num ≠ tgt) :
    (updateGapEntry m dflt idx rm tgt).lookup num = m.lookup num := by
  simp only [updateGapEntry]
  split
  · exact lookup_map_setKey m tgt idx num h
  · rfl

theorem updateGapEntry_lookup_self_sentinel (m : List (Int × Nat)) (dflt idx rm : Nat)
    (num : Int) (h1 : 1 ≤ num) (h2 : num ≤ (rm : Int)) (h3 : m.lookup num = some dflt) :
    (updateGapEntry m dflt idx rm num).lookup num = some idx := by
  have hcond : 1 ≤ num ∧ num ≤ (rm : Int) ∧ lookupD m num dflt = dflt :=
    ⟨h1, h2, by simp [lookupD, h3]⟩
  simp only [updateGapEntry, if_pos hcond]
  clear hcond h1 h2
  induction m with
  | nil => simp [List.lookup] at h3
  | cons q t ih =>
    by_cases hq : num = q.1
    · simp only [List.map_cons, if_pos hq.symm]
      simp [List.lookup, beq_iff_eq.mpr hq]
    · have h3t : t.lookup num = some dflt := by
        simpa [List.lookup, beq_eq_false_iff_ne.mpr hq] using h3
      have hq2 : ¬ (q.1 = num) := fun hh => hq hh.symm
      simp only [List.map_cons, if_neg hq2]
      simp [List.lookup, beq_eq_false_iff_ne.mpr hq, ih h3t]

theorem updateGapEntry_lookup_self_set (m : List (Int × Nat)) (dflt idx rm : Nat)
    (num : Int) (v : Nat) (h3 : m.lookup num = some v) (hv : v ≠ dflt) :
    (updateGapEntry m dflt idx rm num).lookup num = some v := by
  have hcond : ¬ (1 ≤ num ∧ num ≤ (rm : Int) ∧ lookupD m num dflt = dflt) := by
    rintro ⟨-, -, hc⟩
    rw [lookupD, h3] at hc
    exact hv hc
  simp only [updateGapEntry, if_neg hcond]
  exact h3

theorem foldUpdate_preserve (dflt idx rm : Nat) (num : Int) (v : Nat) (hv : v ≠ dflt) :
    ∀ (values : List Int) (m : List (Int × Nat)), m.lookup num = some v →
      (values.foldl (fun m n => updateGapEntry m dflt idx rm n) m).lookup num = some v := by
  intro values
  induction values with
  | nil => intro m h; exact h
  | cons n vs ih =>
    intro m h
    simp only [List.foldl_cons]
    apply ih
    by_cases hn : num = n
    · subst hn
      exact updateGapEntry_lookup_self_set m dflt idx rm num v h hv
    · rw [updateGapEntry_lookup_other m dflt idx rm n num hn]
      exact h

theorem foldUpdate_sentinel (dflt idx rm : Nat) (num : Int)
    (h1 : 1 ≤ num) (h2 : num ≤ (rm : Int)) (hidx : idx ≠ dflt) :
    ∀ (values : List Int) (m : List (Int × Nat)), m.lookup num = some dflt →
      (values.foldl (fun m n => updateGapEntry m dflt idx rm n) m).lookup num
        = if num ∈ values then some idx else some dflt := by
  intro values
  induction values with
  | nil => intro m h; simpa
  | cons n vs ih =>
    intro m h
    simp only [List.foldl_cons]
    by_cases hn : num = n
    · subst hn
      have hset := updateGapEntry_lookup_self_sentinel m dflt idx rm num h1 h2 h
      rw [foldUpdate_preserve dflt idx rm num idx hidx vs _ hset]
      simp
    · have hh : (updateGapEntry m dflt idx rm n).lookup num = some dflt := by
        rw [updateGapEntry_lookup_other m dflt idx rm n num hn]
        exact h
      rw [ih _ hh]
      simp [List.mem_cons, hn]

theorem gapValues_red (d : Draw) : gapValues d true = d.red_balls := rfl

theorem gapScan_preserve (dflt rm : Nat) (num : Int) (v : Nat) (hv : v ≠ dflt) :
    ∀ (rest : List Draw) (idx : Nat) (m : List (Int × Nat)), m.lookup num = some v →
      (gapScan dflt rm true rest idx m).lookup num = some v := by
  intro rest
  induction rest with
  | nil => intro idx m h; exact h
  | cons d ds ih =>
    intro idx m h
    simp only [gapScan]
    exact ih _ _ (foldUpdate_preserve dflt idx rm num v hv (gapValues d true) m h)

theorem gapScan_lookup (dflt rm : Nat) (num : Int)
    (h1 : 1 ≤ num) (h2 : num ≤ (rm : Int)) :
    ∀ (rest : List Draw) (idx : Nat) (m : List (Int × Nat)),
      m.lookup num = some dflt → idx + rest.length ≤ dflt →
      (gapScan dflt rm true rest idx m).lookup num =
        some (if rest.findIdx (fun d => decide (num ∈ d.red_balls)) < rest.length
          then idx + rest.findIdx (fun d => decide (num ∈ d.red_balls)) else dflt) := by
  intro rest
  induction rest with
  | nil =>
    intro idx m h hb
    simpa [gapScan] using h
  | cons d ds ih =>
    intro idx m h hb
    rw [List.length_cons] at hb
    have hidx : idx ≠ dflt := by omega
    simp only [gapScan, gapValues_red]
    rw [List.findIdx_cons (fun d => decide (num ∈ d.red_balls)) d ds]
    by_cases hd : num ∈ d.red_balls
    · have hfold := foldUpdate_sentinel dflt idx rm num h1 h2 hidx d.red_balls m h
      rw [if_pos hd] at hfold
      rw [gapScan_preserve dflt rm num idx hidx ds (idx + 1) _ hfold]
      simp [hd]
    · have hfold := foldUpdate_sentinel dflt idx rm num h1 h2 hidx d.red_balls m h
      rw [if_neg hd] at hfold
      rw [ih (idx + 1) _ hfold (by omega)]
      have hdec : decide (num ∈ d.red_balls) = false := decide_eq_false hd
      rw [hdec]
      simp only [Bool.cond_false, List.length_cons]
      have hle : ds.findIdx (fun d => decide (num ∈ d.red_balls)) ≤ ds.length :=
        List.findIdx_le_length _
      by_cases hf : ds.findIdx (fun d => decide (num ∈ d.red_balls)) < ds.length
      · rw [if_pos hf, if_pos (Nat.succ_lt_succ hf)]
        congr 1
        omega
      · rw [if_neg hf, if_neg (by omega)]

theorem lookup_pairConst {β : Type} (c : β) :
    ∀ (keys : List Int) (num : Int), num ∈ keys →
      (keys.map (fun x => (x, c))).lookup num = some c := by
  intro keys
  induction keys with
  | nil => intro num h; cases h
  | cons x t ih =>
    intro num h
    by_cases hx : num = x
    · simp [List.lookup, beq_iff_eq.mpr hx]
    · rcases List.mem_cons.mp h with h | h
      · exact absurd h hx
      · simp [List.lookup, beq_eq_false_iff_ne.mpr hx, ih num h]

/-- C5 (amended): the gap score of an in-range number is the index of its
first occurrence scanning the supplied newest-first list in order
(newest→oldest) — not oldest→newest as the claim states — divided by the
history length, with never-seen numbers scoring `length/length = 1`
(`List.findIdx` returns the length when no draw matches). -/
theorem c5_gap_score_newest_scan (data : List Draw) (num : Int)
    (h0 : data ≠ []) (h1 : 1 ≤ num) (h2 : num ≤ 33) :
    lookupD (currentGapScores data 33 true) num 0
      = ((data.findIdx (fun d => decide (num ∈ d.red_balls)) : Nat) : ℚ)
        / (data.length : ℚ) := by
  have hlen : ¬ data.length = 0 := by
    simpa [List.length_eq_zero] using h0
  simp only [currentGapScores, if_neg hlen]
  have hinit : ((List.range 33).map
      (fun (k : Nat) => ((k : Int) + 1, data.length))).lookup num = some data.length := by
    have heq : (List.range 33).map (fun (k : Nat) => ((k : Int) + 1, data.length))
        = pool33.map (fun x => (x, data.length)) := by
      rw [pool33, List.map_map]
      rfl
    rw [heq]
    exact lookup_pairConst data.length pool33 num (mem_pool33.mpr ⟨h1, h2⟩)
  have hscan := gapScan_lookup data.length 33 num h1 h2 data 0 _ hinit
    (by omega)
  rw [lookupD, lookup_map_applyVal _ (fun v : Nat => ((v : ℚ) / (data.length : ℚ))) num,
    hscan]
  have hle : data.findIdx (fun d => decide (num ∈ d.red_balls)) ≤ data.length :=
    List.findIdx_le_length _
  by_cases hf : data.findIdx (fun d => decide (num ∈ d.red_balls)) < data.length
  · rw [if_pos hf]
    simp
  · have hf2 : data.findIdx (fun d => decide (num ∈ d.red_balls)) = data.length := by omega
    rw [if_neg hf]
    simp [hf2]

/-- C5 counterexample: on a 2-draw newest-first history where 5 appears only
in the older draw, the code scores `1/2` while the claim's oldest→newest
formula gives `0` — so the claim, as stated, is false. -/
theorem c5_counterexample :
    lookupD (currentGapScores gapFixture 33 true) 5 0 ≠ gapScoreSpecOldest gapFixture 5 := by
  with_unfolding_all decide

/-- Witness for C5 (amended) at the concrete two-draw fixture and number 5. -/
theorem c5_gap_score_newest_scan_witness :
    gapFixture ≠ [] ∧ (1 : Int) ≤ 5 ∧ (5 : Int) ≤ 33 ∧
    lookupD (currentGapScores gapFixture 33 true) 5 0
      = ((gapFixture.findIdx (fun d => decide ((5 : Int) ∈ d.red_balls)) : Nat) : ℚ)
        / (gapFixture.length : ℚ) :=
  ⟨by simp [gapFixture], by decide, by decide,
   c5_gap_score_newest_scan gapFixture 5 (by simp [gapFixture]) (by decide) (by decide)⟩

/-! ## C6: weight normalization -/

theorem sum_map_div (l : List (String × ℚ)) (t : ℚ) :
    ((l.map (fun p => (p.1, p.2 / t))).map (fun p => p.2)).sum
      = ((l.map (fun p => p.2)).sum) / t := by
  induction l with
  | nil => simp
  | cons q rest ih =>
    simp only [List.map_cons, List.sum_cons, ih]
    rw [add_div]

theorem weightsOrDefault_of_ne (w : List (String × ℚ)) (h : w ≠ []) :
    weightsOrDefault (some w) = w := by
  match w, h with
  | q :: rest, _ => rfl

/-- C6 (amended): the weights sum to exactly 1 whenever the supplied mapping
has positive value sum (constructor and `update_weights` alike, and always
for the default mapping), and all weights are nonnegative when the supplied
values are; but an all-zero supplied mapping — which the claim's
"non-negative" premise admits — is left summing to 0, because `sum(...) or
1.0` turns a zero total into a division by 1. -/
theorem c6_weights_normalization :
    (∀ w : List (String × ℚ), 0 < (w.map (fun p => p.2)).sum →
      ((initWeights (some w)).map (fun p => p.2)).sum = 1) ∧
    (∀ w : List (String × ℚ), w ≠ [] → (∀ p ∈ w, 0 ≤ p.2) →
      ∀ p ∈ initWeights (some w), 0 ≤ p.2) ∧
    (((initWeights none).map (fun p => p.2)).sum = 1) ∧
    (∀ (wts m : List (String × ℚ)), 0 < (m.map (fun p => p.2)).sum →
      ((updateWeights wts m).map (fun p => p.2)).sum = 1) ∧
    (∀ (wts m : List (String × ℚ)), m ≠ [] → (∀ p ∈ m, 0 ≤ p.2) →
      ∀ p ∈ updateWeights wts m, 0 ≤ p.2) := by
  refine ⟨?_, ?_, ?_, ?_, ?_⟩
  · intro w hpos
    have hne : w ≠ [] := by
      intro h
      subst h
      simp at hpos
    have hsum : (w.map (fun p => p.2)).sum ≠ 0 := ne_of_gt hpos
    simp only [initWeights, weightsOrDefault_of_ne w hne, if_neg hsum]
    rw [sum_map_div]
    exact div_self hsum
  · intro w hne hnn p hp
    simp only [initWeights, weightsOrDefault_of_ne w hne] at hp
    obtain ⟨q, hq, rfl⟩ := List.mem_map.mp hp
    have hq2 := hnn q hq
    have hden : (0 : ℚ) ≤ (if (w.map (fun p => p.2)).sum = 0 then 1
        else (w.map (fun p => p.2)).sum) := by
      split
      · norm_num
      · exact List.sum_nonneg (by
          intro x hx
          obtain ⟨q2, hq2m, rfl⟩ := List.mem_map.mp hx
          exact hnn q2 hq2m)
    exact div_nonneg hq2 hden
  · with_unfolding_all decide
  · intro wts m hpos
    have hne : ¬ m.length = 0 := by
      intro h
      rw [List.length_eq_zero] at h
      subst h
      simp at hpos
    have hsum : (m.map (fun p => p.2)).sum ≠ 0 := ne_of_gt hpos
    simp only [updateWeights, if_neg hne, if_neg hsum]
    rw [sum_map_div]
    exact div_self hsum
  · intro wts m hne hnn p hp
    have hne2 : ¬ m.length = 0 := by
      simpa [List.length_eq_zero] using hne
    simp only [updateWeights, if_neg hne2] at hp
    obtain ⟨q, hq, rfl⟩ := List.mem_map.mp hp
    have hden : (0 : ℚ) ≤ (if (m.map (fun p => p.2)).sum = 0 then 1
        else (m.map (fun p => p.2)).sum) := by
      split
      · norm_num
      · exact List.sum_nonneg (by
          intro x hx
          obtain ⟨q2, hq2m, rfl⟩ := List.mem_map.mp hx
          exact hnn q2 hq2m)
    exact div_nonneg (hnn q hq) hden

/-- C6 counterexample: the all-zero mapping `{"frequency": 0}` is
non-negative, yet the constructed weights sum to 0, not 1. -/
theorem c6_counterexample :
    (∀ p ∈ [(("frequency" : String), (0 : ℚ))], 0 ≤ p.2) ∧
    ((initWeights (some [("frequency", 0)])).map (fun p => p.2)).sum ≠ 1 := by
  constructor
  · with_unfolding_all decide
  · with_unfolding_all decide

/-- Witness for C6 (amended) at concrete positive mappings. -/
theorem c6_weights_normalization_witness :
    ((0 : ℚ) < (([(("frequency" : String), (2 : ℚ))]).map (fun p => p.2)).sum) ∧
    ((initWeights (some [("frequency", 2)])).map (fun p => p.2)).sum = 1 ∧
    ((updateWeights defaultWeights [("trend", 3)]).map (fun p => p.2)).sum = 1 :=
  ⟨by with_unfolding_all decide,
   c6_weights_normalization.1 [("frequency", 2)] (by with_unfolding_all decide),
   c6_weights_normalization.2.2.2.1 defaultWeights [("trend", 3)]
     (by with_unfolding_all decide)⟩

/-! ## C8: min-max normalization -/

theorem le_foldl_max : ∀ (l : List ℚ) (d : ℚ),
    d ≤ l.foldl max d ∧ ∀ x ∈ l, x ≤ l.foldl max d := by
  intro l
  induction l with
  | nil => intro d; exact ⟨le_refl d, by intro x hx; cases hx⟩
  | cons a t ih =>
    intro d
    simp only [List.foldl_cons]
    refine ⟨le_trans (le_max_left d a) (ih (max d a)).1, ?_⟩
    intro x hx
    rcases List.mem_cons.mp hx with hx | hx
    · rw [hx]
      exact le_trans (le_max_right d a) (ih (max d a)).1
    · exact (ih (max d a)).2 x hx

theorem foldl_min_le : ∀ (l : List ℚ) (d : ℚ),
    l.foldl min d ≤ d ∧ ∀ x ∈ l, l.foldl min d ≤ x := by
  intro l
  induction l with
  | nil => intro d; exact ⟨le_refl d, by intro x hx; cases hx⟩
  | cons a t ih =>
    intro d
    simp only [List.foldl_cons]
    refine ⟨le_trans (ih (min d a)).1 (min_le_left d a), ?_⟩
    intro x hx
    rcases List.mem_cons.mp hx with hx | hx
    · rw [hx]
      exact le_trans (ih (min d a)).1 (min_le_right d a)
    · exact (ih (min d a)).2 x hx

theorem foldl_max_mem : ∀ (l : List ℚ) (d : ℚ),
    l.foldl max d = d ∨ l.foldl max d ∈ l := by
  intro l
  induction l with
  | nil => intro d; exact Or.inl rfl
  | cons a t ih =>
    intro d
    simp only [List.foldl_cons]
    rcases ih (max d a) with h | h
    · rcases max_choice d a with hm | hm
      · exact Or.inl (h.trans hm)
      · refine Or.inr ?_
        rw [h, hm]
        exact List.mem_cons_self a t
    · exact Or.inr (List.mem_cons_of_mem a h)

theorem foldl_min_mem : ∀ (l : List ℚ) (d : ℚ),
    l.foldl min d = d ∨ l.foldl min d ∈ l := by
  intro l
  induction l with
  | nil => intro d; exact Or.inl rfl
  | cons a t ih =>
    intro d
    simp only [List.foldl_cons]
    rcases ih (min d a) with h | h
    · rcases min_choice d a with hm | hm
      · exact Or.inl (h.trans hm)
      · refine Or.inr ?_
        rw [h, hm]
        exact List.mem_cons_self a t
    · exact Or.inr (List.mem_cons_of_mem a h)

theorem headD_mem (l : List ℚ) (d : ℚ) (h : l ≠ []) : l.headD d ∈ l := by
  match l, h with
  | a :: t, _ => exact List.mem_cons_self a t

/-- C8: a table with two distinct values normalizes onto exactly `[0,1]`
(all entries inside, the minimum entry at 0, the maximum entry at 1), and a
constant table maps every entry to `1/|table|`. -/
theorem c8_normalize_minmax :
    (∀ (l : List (Int × ℚ)) (p q : Int × ℚ), p ∈ l → q ∈ l → p.2 ≠ q.2 →
      ((∀ x ∈ normalizeScores l, 0 ≤ x.2 ∧ x.2 ≤ 1) ∧
       (∃ x ∈ normalizeScores l, x.2 = 0) ∧
       (∃ x ∈ normalizeScores l, x.2 = 1))) ∧
    (∀ (l : List (Int × ℚ)) (c : ℚ), l ≠ [] → (∀ p ∈ l, p.2 = c) →
      ∀ x ∈ normalizeScores l, x.2 = 1 / (l.length : ℚ)) := by
  constructor
  · intro l p q hp hq hpq
    have hne : l ≠ [] := by
      intro h
      subst h
      cases hp
    have hlen : ¬ l.length = 0 := by
      simpa [List.length_eq_zero] using hne
    have hnum : l.map (fun p => p.2) ≠ [] := by
      simpa [List.map_eq_nil_iff] using hne
    have hmax_mem : maxD (l.map (fun p => p.2)) ((l.map (fun p => p.2)).headD 0)
        ∈ l.map (fun p => p.2) := by
      rcases foldl_max_mem (l.map (fun p => p.2)) ((l.map (fun p => p.2)).headD 0) with h | h
      · rw [maxD, h]
        exact headD_mem _ 0 hnum
      · exact h
    have hmin_mem : (l.map (fun p => p.2)).foldl min ((l.map (fun p => p.2)).headD 0)
        ∈ l.map (fun p => p.2) := by
      rcases foldl_min_mem (l.map (fun p => p.2)) ((l.map (fun p => p.2)).headD 0) with h | h
      · rw [h]
        exact headD_mem _ 0 hnum
      · exact h
    have hub := (le_foldl_max (l.map (fun p => p.2)) ((l.map (fun p => p.2)).headD 0)).2
    have hlb := (foldl_min_le (l.map (fun p => p.2)) ((l.map (fun p => p.2)).headD 0)).2
    have hne2 : ¬ maxD (l.map (fun p => p.2)) ((l.map (fun p => p.2)).headD 0)
        = (l.map (fun p => p.2)).foldl min ((l.map (fun p => p.2)).headD 0) := by
      intro heq
      apply hpq
      have h1 : p.2 ≤ q.2 := by
        have ha : p.2 ≤ maxD (l.map (fun p => p.2)) ((l.map (fun p => p.2)).headD 0) :=
          hub p.2 (List.mem_map.mpr ⟨p, hp, rfl⟩)
        have hb := hlb q.2 (List.mem_map.mpr ⟨q, hq, rfl⟩)
        rw [heq] at ha
        exact le_trans ha hb
      have h2 : q.2 ≤ p.2 := by
        have ha : q.2 ≤ maxD (l.map (fun p => p.2)) ((l.map (fun p => p.2)).headD 0) :=
          hub q.2 (List.mem_map.mpr ⟨q, hq, rfl⟩)
        have hb := hlb p.2 (List.mem_map.mpr ⟨p, hp, rfl⟩)
        rw [heq] at ha
        exact le_trans ha hb
      exact le_antisymm h1 h2
    have hlt : (l.map (fun p => p.2)).foldl min ((l.map (fun p => p.2)).headD 0)
        < maxD (l.map (fun p => p.2)) ((l.map (fun p => p.2)).headD 0) := by
      rcases lt_or_le ((l.map (fun p => p.2)).foldl min ((l.map (fun p => p.2)).headD 0))
          (maxD (l.map (fun p => p.2)) ((l.map (fun p => p.2)).headD 0)) with h | h
      · exact h
      · exfalso
        apply hne2
        apply le_antisymm h
        exact hlb _ hmax_mem
    have hpos : (0 : ℚ) < maxD (l.map (fun p => p.2)) ((l.map (fun p => p.2)).headD 0)
        - (l.map (fun p => p.2)).foldl min ((l.map (fun p => p.2)).headD 0) :=
      sub_pos.mpr hlt
    simp only [normalizeScores, if_neg hlen, if_neg hne2]
    refine ⟨?_, ?_, ?_⟩
    · intro x hx
      obtain ⟨y, hy, rfl⟩ := List.mem_map.mp hx
      constructor
      · exact div_nonneg (sub_nonneg.mpr (hlb y.2 (List.mem_map.mpr ⟨y, hy, rfl⟩)))
          (le_of_lt hpos)
      · rw [div_le_one hpos]
        have h2 : y.2 ≤ maxD (l.map (fun p => p.2)) ((l.map (fun p => p.2)).headD 0) :=
          hub y.2 (List.mem_map.mpr ⟨y, hy, rfl⟩)
        linarith
    · obtain ⟨y, hy, hyv⟩ := List.mem_map.mp hmin_mem
      refine ⟨(y.1, (y.2 - (l.map (fun p => p.2)).foldl min ((l.map (fun p => p.2)).headD 0))
        / (maxD (l.map (fun p => p.2)) ((l.map (fun p => p.2)).headD 0)
          - (l.map (fun p => p.2)).foldl min ((l.map (fun p => p.2)).headD 0))),
        List.mem_map.mpr ⟨y, hy, rfl⟩, ?_⟩
      show (y.2 - _) / _ = 0
      rw [hyv, sub_self, zero_div]
    · obtain ⟨y, hy, hyv⟩ := List.mem_map.mp hmax_mem
      refine ⟨(y.1, (y.2 - (l.map (fun p => p.2)).foldl min ((l.map (fun p => p.2)).headD 0))
        / (maxD (l.map (fun p => p.2)) ((l.map (fun p => p.2)).headD 0)
          - (l.map (fun p => p.2)).foldl min ((l.map (fun p => p.2)).headD 0))),
        List.mem_map.mpr ⟨y, hy, rfl⟩, ?_⟩
      show (y.2 - _) / _ = 1
      rw [hyv]
      exact div_self (ne_of_gt hpos)
  · intro l c hne hc x hx
    have hlen : ¬ l.length = 0 := by
      simpa [List.length_eq_zero] using hne
    have hnum : l.map (fun p => p.2) ≠ [] := by
      simpa [List.map_eq_nil_iff] using hne
    have hconst : ∀ d, d = c → (l.map (fun p => p.2)).foldl max d = c := by
      have : ∀ (vals : List ℚ), (∀ v ∈ vals, v = c) → ∀ d, d = c → vals.foldl max d = c := by
        intro vals
        induction vals with
        | nil => intro _ d hd; exact hd
        | cons a t ih =>
          intro hv d hd
          simp only [List.foldl_cons]
          exact ih (fun v hv2 => hv v (List.mem_cons_of_mem a hv2))
            (max d a) (by rw [hd, hv a (List.mem_cons_self a t), max_self])
      intro d hd
      exact this (l.map (fun p => p.2)) (by
        intro v hv
        obtain ⟨y, hy, rfl⟩ := List.mem_map.mp hv
        exact hc y hy) d hd
    have hconstmin : ∀ d, d = c → (l.map (fun p => p.2)).foldl min d = c := by
      have : ∀ (vals : List ℚ), (∀ v ∈ vals, v = c) → ∀ d, d = c → vals.foldl min d = c := by
        intro vals
        induction vals with
        | nil => intro _ d hd; exact hd
        | cons a t ih =>
          intro hv d hd
          simp only [List.foldl_cons]
          exact ih (fun v hv2 => hv v (List.mem_cons_of_mem a hv2))
            (min d a) (by rw [hd, hv a (List.mem_cons_self a t), min_self])
      intro d hd
      exact this (l.map (fun p => p.2)) (by
        intro v hv
        obtain ⟨y, hy, rfl⟩ := List.mem_map.mp hv
        exact hc y hy) d hd
    have hd0 : (l.map (fun p => p.2)).headD 0 = c := by
      have := headD_mem (l.map (fun p => p.2)) 0 hnum
      obtain ⟨y, hy, hyv⟩ := List.mem_map.mp this
      rw [← hyv]
      exact hc y hy
    have heq : maxD (l.map (fun p => p.2)) ((l.map (fun p => p.2)).headD 0)
        = (l.map (fun p => p.2)).foldl min ((l.map (fun p => p.2)).headD 0) := by
      rw [maxD, hconst _ hd0, hconstmin _ hd0]
    simp only [normalizeScores, if_neg hlen, if_pos heq] at hx
    obtain ⟨y, hy, rfl⟩ := List.mem_map.mp hx
    rfl

/-- Witness for C8 at the tables `[(1,5),(2,10)]` and `[(1,4),(2,4)]`. -/
theorem c8_normalize_minmax_witness :
    ((1, (5 : ℚ)) ∈ [((1 : Int), (5 : ℚ)), (2, 10)] ∧
     ((2 : Int), (10 : ℚ)) ∈ [((1 : Int), (5 : ℚ)), (2, 10)] ∧
     ((1, (5 : ℚ)) : Int × ℚ).2 ≠ (((2 : Int), (10 : ℚ)) : Int × ℚ).2 ∧
     (∀ x ∈ normalizeScores [((1 : Int), (5 : ℚ)), (2, 10)], 0 ≤ x.2 ∧ x.2 ≤ 1)) ∧
    (([((1 : Int), (4 : ℚ)), (2, 4)] : List (Int × ℚ)) ≠ [] ∧
     ∀ x ∈ normalizeScores [((1 : Int), (4 : ℚ)), (2, 4)],
       x.2 = 1 / (([((1 : Int), (4 : ℚ)), (2, 4)] : List (Int × ℚ)).length : ℚ)) := by
  constructor
  · refine ⟨by decide, by decide, by with_unfolding_all decide, ?_⟩
    exact (c8_normalize_minmax.1 [((1 : Int), (5 : ℚ)), (2, 10)] (1, 5) (2, 10)
      (by decide) (by decide) (by with_unfolding_all decide)).1
  · refine ⟨by simp, ?_⟩
    exact c8_normalize_minmax.2 [((1 : Int), (4 : ℚ)), (2, 4)] 4 (by simp)
      (by with_unfolding_all decide)

/-! ## C7: distribution-balanced selection -/

theorem countBand_nil (b : Band) : countBand b [] = 0 := rfl

theorem countBand_cons (b : Band) (a : Int) (t : List Int) :
    countBand b (a :: t) = (if groupForNumber a = b then 1 else 0) + countBand b t := by
  simp only [countBand, List.filter_cons]
  by_cases h : groupForNumber a = b
  · simp [h, Nat.add_comm]
  · simp [h]

theorem countBand_append (b : Band) (sel : List Int) (x : Int) :
    countBand b (sel ++ [x])
      = countBand b sel + (if groupForNumber x = b then 1 else 0) := by
  simp only [countBand, List.filter_append, List.length_append, List.filter_cons,
    List.filter_nil]
  by_cases h : groupForNumber x = b
  · simp [h]
  · simp [h]

theorem candCount_cons (b : Band) (p : Int × ℚ) (rest : List (Int × ℚ)) :
    candCount b (p :: rest)
      = (if groupForNumber p.1 = b then 1 else 0) + candCount b rest := by
  simp only [candCount, List.filter_cons]
  by_cases h : groupForNumber p.1 = b
  · simp [h, Nat.add_comm]
  · simp [h]

theorem countBand_perm (b : Band) {l1 l2 : List Int} (h : List.Perm l1 l2) :
    countBand b l1 = countBand b l2 :=
  List.Perm.length_eq (List.Perm.filter _ h)

theorem candCount_perm (b : Band) {l1 l2 : List (Int × ℚ)} (h : List.Perm l1 l2) :
    candCount b l1 = candCount b l2 :=
  List.Perm.length_eq (List.Perm.filter _ h)

theorem length_eq_sum_countBand : ∀ sel : List Int,
    sel.length
      = countBand Band.low sel + countBand Band.mid sel + countBand Band.high sel := by
  intro sel
  induction sel with
  | nil => rfl
  | cons a t ih =>
    rw [List.length_cons, countBand_cons, countBand_cons, countBand_cons, ih]
    cases hb : groupForNumber a <;> simp <;> omega

theorem length_filter_map_fst (q : Int → Bool) :
    ∀ scores : List (Int × ℚ),
      (scores.filter (fun p => q p.1)).length
        = ((scores.map (fun p => p.1)).filter q).length := by
  intro scores
  induction scores with
  | nil => rfl
  | cons p rest ih =>
    simp only [List.map_cons, List.filter_cons]
    cases hq : q p.1 <;> simp [hq, ih]

theorem distGo_band_facts :
    ∀ (cands : List (Int × ℚ)) (sel : List Int) (cnt : Band → Nat),
      (∀ b, cnt b = countBand b sel ∧ cnt b ≤ 2) →
      (∀ b, countBand b (distGo cands sel cnt) ≤ 2) ∧
      (distGo cands sel cnt).length ≤ 6 ∧
      ((distGo cands sel cnt).length = 6 ∨
        ∀ b, min 2 (countBand b sel + candCount b cands)
          ≤ countBand b (distGo cands sel cnt)) := by
  intro cands
  induction cands with
  | nil =>
    intro sel cnt hinv
    simp only [distGo]
    refine ⟨fun b => (hinv b).1 ▸ (hinv b).2, ?_, Or.inr ?_⟩
    · have h1 := (hinv Band.low).1
      have h2 := (hinv Band.low).2
      have h3 := (hinv Band.mid).1
      have h4 := (hinv Band.mid).2
      have h5 := (hinv Band.high).1
      have h6 := (hinv Band.high).2
      have hs := length_eq_sum_countBand sel
      omega
    · intro b
      simp only [candCount, List.filter_nil, List.length_nil]
      omega
  | cons p rest ih =>
    intro sel cnt hinv
    simp only [distGo]
    by_cases hg : cnt (groupForNumber p.1) < 2
    · rw [if_pos hg]
      by_cases hlen : (sel ++ [p.1]).length = 6
      · rw [if_pos hlen]
        refine ⟨?_, le_of_eq hlen, Or.inl hlen⟩
        intro b
        rw [countBand_append]
        have h1 := (hinv b).1
        have h2 := (hinv b).2
        by_cases hb : groupForNumber p.1 = b
        · rw [if_pos hb]
          rw [← hb] at h1 h2 ⊢
          omega
        · rw [if_neg hb]
          omega
      · rw [if_neg hlen]
        have hinv' : ∀ b,
            (if b = groupForNumber p.1 then cnt (groupForNumber p.1) + 1 else cnt b)
              = countBand b (sel ++ [p.1]) ∧
            (if b = groupForNumber p.1 then cnt (groupForNumber p.1) + 1 else cnt b)
              ≤ 2 := by
          intro b
          by_cases hb : b = groupForNumber p.1
          · rw [hb]
            rw [if_pos rfl, countBand_append, if_pos rfl]
            have h1 := (hinv (groupForNumber p.1)).1
            refine ⟨?_, ?_⟩ <;> omega
          · have hb2 : ¬ groupForNumber p.1 = b := fun h => hb h.symm
            rw [if_neg hb, countBand_append, if_neg hb2]
            have h1 := (hinv b).1
            have h2 := (hinv b).2
            exact ⟨by omega, h2⟩
        obtain ⟨ihA, ihB, ihC⟩ := ih (sel ++ [p.1])
          (fun b => if b = groupForNumber p.1 then cnt (groupForNumber p.1) + 1 else cnt b)
          hinv'
        refine ⟨ihA, ihB, ?_⟩
        rcases ihC with h6 | hsat
        · exact Or.inl h6
        · refine Or.inr fun b => ?_
          have hs := hsat b
          rw [countBand_append] at hs
          rw [candCount_cons]
          by_cases hb : groupForNumber p.1 = b
          · rw [if_pos hb] at hs ⊢
            omega
          · rw [if_neg hb] at hs ⊢
            omega
    · rw [if_neg hg]
      by_cases hl6 : sel.length = 6
      · rw [if_pos hl6]
        refine ⟨?_, le_of_eq hl6, Or.inl hl6⟩
        intro b
        have h1 := (hinv b).1
        have h2 := (hinv b).2
        omega
      · rw [if_neg hl6]
        obtain ⟨ihA, ihB, ihC⟩ := ih sel cnt hinv
        refine ⟨ihA, ihB, ?_⟩
        rcases ihC with h6 | hsat
        · exact Or.inl h6
        · refine Or.inr fun b => ?_
          have hs := hsat b
          rw [candCount_cons]
          by_cases hb : groupForNumber p.1 = b
          · rw [if_pos hb]
            have h1 := (hinv b).1
            have h2 := (hinv b).2
            rw [hb] at hg
            omega
          · rw [if_neg hb]
            omega

/-- C7: over any combined score table keyed by the full primary pool 1..33,
`_select_numbers_with_distribution` returns exactly 6 numbers with at most 2
in each of the bands 1-11, 12-22 and 23-33. -/
theorem c7_distribution_balance (scores : List (Int × ℚ))
    (hkeys : scores.map (fun p => p.1) = pool33) :
    (selectNumbersWithDistribution scores).length = 6 ∧
    ∀ b : Band, countBand b (selectNumbersWithDistribution scores) ≤ 2 := by
  have hperm : List.Perm (scores.sortB descBySnd) scores := sortB_perm scores descBySnd
  have hcand : ∀ b : Band, 2 ≤ candCount b (scores.sortB descBySnd) := by
    intro b
    rw [candCount_perm b hperm]
    have h1 : candCount b scores = countBand b pool33 := by
      simp only [candCount, countBand]
      rw [length_filter_map_fst (fun n => decide (groupForNumber n = b)) scores, hkeys]
    rw [h1]
    cases b <;> decide
  have hinv0 : ∀ b : Band, (fun _ : Band => 0) b = countBand b ([] : List Int) ∧
      (fun _ : Band => 0) b ≤ 2 := fun b => ⟨rfl, Nat.zero_le 2⟩
  obtain ⟨hA, hB, hC⟩ :=
    distGo_band_facts (scores.sortB descBySnd) [] (fun _ => 0) hinv0
  have hr6 : (distGo (scores.sortB descBySnd) [] (fun _ => 0)).length = 6 := by
    rcases hC with h6 | hsat
    · exact h6
    · have hl := hsat Band.low
      have hm := hsat Band.mid
      have hh := hsat Band.high
      simp only [countBand_nil, Nat.zero_add] at hl hm hh
      have hcl := hcand Band.low
      have hcm := hcand Band.mid
      have hch := hcand Band.high
      have hAl := hA Band.low
      have hAm := hA Band.mid
      have hAh := hA Band.high
      have hs := length_eq_sum_countBand (distGo (scores.sortB descBySnd) [] (fun _ => 0))
      omega
  simp only [selectNumbersWithDistribution]
  rw [if_neg (by rw [hr6]; omega)]
  rw [List.take_of_length_le (le_of_eq hr6)]
  have hperm2 : List.Perm
      ((distGo (scores.sortB descBySnd) [] (fun _ => 0)).sortB intLe)
      (distGo (scores.sortB descBySnd) [] (fun _ => 0)) := sortB_perm _ intLe
  refine ⟨?_, ?_⟩
  · rw [List.Perm.length_eq hperm2, hr6]
  · intro b
    rw [countBand_perm b hperm2]
    exact hA b

/-- Witness for C7 at the constant full-pool score table. -/
theorem c7_distribution_balance_witness :
    ((pool33.map (fun n => (n, (0 : ℚ)))).map (fun p => p.1) = pool33) ∧
    ((selectNumbersWithDistribution (pool33.map (fun n => (n, (0 : ℚ))))).length = 6 ∧
     ∀ b : Band,
       countBand b (selectNumbersWithDistribution (pool33.map (fun n => (n, (0 : ℚ))))) ≤ 2) := by
  have hk : (pool33.map (fun n => (n, (0 : ℚ)))).map (fun p => p.1) = pool33 := by
    rw [List.map_map]
    rfl
  exact ⟨hk, c7_distribution_balance (pool33.map (fun n => (n, (0 : ℚ)))) hk⟩

/-! ## C9: determinism of the frequency generator's non-fallback path -/

theorem fillReds_id (d : List Int) (r : Rng) (i : Nat) (h : d.length = 6) :
    fillReds d r i = (d, i) := by
  simp only [fillReds]
  rw [if_neg (by omega), if_neg (by omega)]

theorem fixBlue_id (b : Int) (r : Rng) (i : Nat) (h1 : 1 ≤ b) (h2 : b ≤ 16) :
    fixBlue b r i = (b, i) := by
  simp only [fixBlue]
  rw [if_neg (by omega)]

/-- On the non-fallback path the frequency generator never touches the random
stream: it returns the closed-form `freqPredictCore` and the cursor unchanged. -/
theorem freqPredict_run (hist : List Draw) (n : Nat) (r : Rng) (i : Nat)
    (h0 : ¬ hist.length = 0) (h1 : ¬ (extractRedBalls (hist.take n)).length = 0) :
    freqPredict hist n r i = (freqPredictCore hist n, i) := by
  have hps := topSel_facts (calculateFrequency (extractRedBalls (hist.take n)).flatten 33)
    descBySndNat
    (by rw [calculateFrequency_keys]; exact rangeKeys_nodup 33)
    (by rw [calculateFrequency_length]; omega)
    (by intro p hp
        have := calculateFrequency_key_bounds (extractRedBalls (hist.take n)).flatten 33 p hp
        omega)
  have hnd : (((((calculateFrequency (extractRedBalls (hist.take n)).flatten 33).sortB
      descBySndNat).take 6).map (fun p => p.1)).sortB intLe).Nodup :=
    hps.2.1.imp ne_of_lt
  have hded : (dedupSortInts (((((calculateFrequency
      (extractRedBalls (hist.take n)).flatten 33).sortB
      descBySndNat).take 6).map (fun p => p.1)).sortB intLe)).length = 6 := by
    show ((((((calculateFrequency (extractRedBalls (hist.take n)).flatten 33).sortB
      descBySndNat).take 6).map (fun p => p.1)).sortB intLe).dedup.sortB intLe).length = 6
    rw [length_sortB, List.dedup_eq_self.mpr hnd]
    exact hps.1
  have hblen : ((calculateFrequency (extractBlueBalls (hist.take n)) 16).sortB
      descBySndNat).length = 16 := by
    rw [length_sortB, calculateFrequency_length]
  cases hsb : (calculateFrequency (extractBlueBalls (hist.take n)) 16).sortB descBySndNat with
  | nil =>
    rw [hsb] at hblen
    simp at hblen
  | cons q qs =>
    have hq : 1 ≤ q.1 ∧ q.1 ≤ 16 := by
      have hqm : q ∈ (calculateFrequency (extractBlueBalls (hist.take n)) 16).sortB
          descBySndNat := by
        rw [hsb]
        exact List.mem_cons_self q qs
      have := calculateFrequency_key_bounds (extractBlueBalls (hist.take n)) 16 q
        (mem_sortB.mp hqm)
      omega
    simp only [freqPredict, freqPredictCore, if_neg h0, if_neg h1, hsb, List.headD_cons]
    simp only [validatePrediction]
    rw [fillReds_id _ r i hded]
    dsimp only
    rw [fixBlue_id q.1 r i hq.1 hq.2]

/-- C9: the frequency generator is deterministic on its non-fallback path
(non-empty history, at least one extracted red draw): it never consumes the
random stream, two calls on arbitrary streams and cursors agree and both equal
the closed-form `freqPredictCore`. -/
theorem c9_frequency_deterministic (hist : List Draw) (n : Nat)
    (h0 : ¬ hist.length = 0) (h1 : ¬ (extractRedBalls (hist.take n)).length = 0)
    (r1 r2 : Rng) (i1 i2 : Nat) :
    (freqPredict hist n r1 i1).1 = (freqPredict hist n r2 i2).1 ∧
    (freqPredict hist n r1 i1).1 = freqPredictCore hist n ∧
    (freqPredict hist n r1 i1).2 = i1 := by
  have e1 := freqPredict_run hist n r1 i1 h0 h1
  have e2 := freqPredict_run hist n r2 i2 h0 h1
  rw [e1, e2]
  exact ⟨rfl, rfl, rfl⟩

/-- Witness for C9 at a one-draw history and two different streams/cursors. -/
theorem c9_frequency_deterministic_witness :
    (¬ ([fixtureDraw 0].length = 0)) ∧
    (¬ ((extractRedBalls ([fixtureDraw 0].take 10)).length = 0)) ∧
    ((freqPredict [fixtureDraw 0] 10 rngZero 0).1
        = (freqPredict [fixtureDraw 0] 10 ⟨fun k => k⟩ 5).1 ∧
     (freqPredict [fixtureDraw 0] 10 rngZero 0).1 = freqPredictCore [fixtureDraw 0] 10 ∧
     (freqPredict [fixtureDraw 0] 10 rngZero 0).2 = 0) :=
  ⟨by decide, by decide,
   c9_frequency_deterministic [fixtureDraw 0] 10 (by decide) (by decide)
     rngZero ⟨fun k => k⟩ 0 5⟩

/-! ## C4: history-size thresholds of trend / sequence-memory / forest -/

theorem metaGet_validate (mc : ℚ) (res : PredictionResult) (r : Rng) (i : Nat)
    (k : String) :
    metaGet (validatePrediction mc res r i).1 k = metaGet res k := by
  simp only [metaGet, (validatePrediction_facts mc res r i).2.2.2.2.2.2]

theorem trendPredict_short (hs : Bool) (hist : List Draw) (n : Nat) (r : Rng)
    (i : Nat) (h : hist.length < 30) :
    trendPredict hs hist n r i = generateRandomFallback r i := by
  simp only [trendPredict, if_pos (Or.inr h)]

theorem lstmPredict_short (e : Env) (hist : List Draw) (n : Nat) (r : Rng)
    (i : Nat) (h : hist.length < 30) :
    lstmPredict e hist n r i = generateRandomFallback r i := by
  simp only [lstmPredict, if_pos (Or.inr h)]

theorem prepareTrainingData_len (e : Env) (lb : Nat) (redHist : List (List Int)) :
    (prepareTrainingData e lb redHist).1.length ≤ redHist.length - lb := by
  simp only [prepareTrainingData]
  rw [List.length_map]
  calc ((List.range (redHist.length - lb)).filterMap _).length
      ≤ (List.range (redHist.length - lb)).length := List.length_filterMap_le _ _
    _ = redHist.length - lb := List.length_range _

theorem forestPredictRed_freq (e : Env) (o : ForestOracle) (lb : Nat)
    (redHist : List (List Int)) (r : Rng) (i : Nat)
    (h : (prepareTrainingData e lb redHist).1.length < 25) :
    forestPredictRed e o lb redHist r i
      = ((frequencyBasedSelection redHist, 45 / 100), i) := by
  simp only [forestPredictRed, if_pos h]

theorem metaGet_trend_real (hs : Bool) (hist : List Draw) (n : Nat) (r : Rng)
    (i : Nat) (h0 : ¬ (hist.length = 0 ∨ hist.length < 30))
    (h1 : ¬ ((extractRedBalls (hist.take n)).length = 0 ∨
      (extractRedBalls (hist.take n)).length < 30)) :
    metaGet (trendPredict hs hist n r i).1 "fallback" = none := by
  simp only [trendPredict, if_neg h0, if_neg h1]
  rw [metaGet_validate]
  rfl

theorem metaGet_lstm_real (e : Env) (hist : List Draw) (n : Nat) (r : Rng)
    (i : Nat) (h0 : ¬ (hist.length = 0 ∨ hist.length < 30))
    (h1 : ¬ (extractRedBalls (hist.take n)).length < 30) :
    metaGet (lstmPredict e hist n r i).1 "fallback" = none := by
  simp only [lstmPredict, if_neg h0, if_neg h1]
  rw [metaGet_validate]
  rfl

theorem forest_real_facts (e : Env) (o : ForestOracle) (hist : List Draw)
    (n : Nat) (r : Rng) (i : Nat) (hsk : e.hasSklearn = true)
    (h0 : ¬ (hist.length = 0 ∨ hist.length < 5 + 10))
    (h1 : ¬ (extractRedBalls (hist.take n)).length < 5 + 10) :
    metaGet (forestPredict e o hist n r i).1 "fallback" = none ∧
    (forestPredict e o hist n r i).1.confidence
      = min (52 + (forestPredictRed e o 5 (extractRedBalls (hist.take n)) r i).1.2 * 28
          + min (((extractRedBalls (hist.take n)).length : ℚ) / 400) 1 * 10) 72 := by
  have hsk2 : ¬ ¬ (e.hasSklearn = true) := fun h => h hsk
  simp only [forestPredict, if_neg hsk2, if_neg h0, if_neg h1]
  constructor
  · rw [metaGet_validate]
    rfl
  · rw [(validatePrediction_facts 72 _ r _).2.2.2.2.2.1]

/-- C4 (amended): with 49 well-formed draws the trend, sequence-memory and
forest generators all run their real algorithm (no fallback marker); with 19
draws trend and sequence-memory return the random fallback shape, but the
forest does NOT — its minimum history is `lookback + 10 = 15 ≤ 19`, so it
runs its real path with no fallback marker and confidence different from 30. -/
theorem c4_threshold_split (e : Env) (o : ForestOracle)
    (h49 h19 : List Draw) (n : Nat) (r : Rng) (i : Nat)
    (hsk : e.hasSklearn = true)
    (hl49 : h49.length = 49) (hr49 : (extractRedBalls (h49.take n)).length = 49)
    (hl19 : h19.length = 19) (hr19 : (extractRedBalls (h19.take n)).length = 19) :
    (metaGet (trendPredict e.hasStatsmodels h49 n r i).1 "fallback" = none ∧
     metaGet (lstmPredict e h49 n r i).1 "fallback" = none ∧
     metaGet (forestPredict e o h49 n r i).1 "fallback" = none) ∧
    (trendPredict e.hasStatsmodels h19 n r i = generateRandomFallback r i ∧
     lstmPredict e h19 n r i = generateRandomFallback r i ∧
     metaGet (trendPredict e.hasStatsmodels h19 n r i).1 "fallback"
       = some (MetaVal.bool true) ∧
     metaGet (lstmPredict e h19 n r i).1 "fallback" = some (MetaVal.bool true)) ∧
    (metaGet (forestPredict e o h19 n r i).1 "fallback" = none ∧
     (forestPredict e o h19 n r i).1.confidence ≠ 30) := by
  have hfb : metaGet (generateRandomFallback r i).1 "fallback"
      = some (MetaVal.bool true) := rfl
  have ht19 := trendPredict_short e.hasStatsmodels h19 n r i (by omega)
  have hl19' := lstmPredict_short e h19 n r i (by omega)
  obtain ⟨hm19, hc19⟩ := forest_real_facts e o h19 n r i hsk (by omega) (by omega)
  refine ⟨⟨?_, ?_, ?_⟩, ⟨ht19, hl19', ?_, ?_⟩, hm19, ?_⟩
  · exact metaGet_trend_real e.hasStatsmodels h49 n r i (by omega) (by omega)
  · exact metaGet_lstm_real e h49 n r i (by omega) (by omega)
  · exact (forest_real_facts e o h49 n r i hsk (by omega) (by omega)).1
  · rw [ht19]
    exact hfb
  · rw [hl19']
    exact hfb
  · rw [hc19, forestPredictRed_freq e o 5 _ r i (by
      have := prepareTrainingData_len e 5 (extractRedBalls (h19.take n))
      omega)]
    rw [hr19]
    dsimp only
    with_unfolding_all decide

/-- C4 counterexample: at 19 well-formed draws (sklearn present) the forest
generator does not return the fallback shape — no fallback metadata and
confidence `2603/40 ≠ 30` — refuting the claim's "all three must return the
fallback shape with only 19 draws". -/
theorem c4_counterexample :
    hist19.length = 19 ∧ envFix.hasSklearn = true ∧
    metaGet (forestPredict envFix orcFix hist19 49 rngZero 0).1 "fallback" = none ∧
    (forestPredict envFix orcFix hist19 49 rngZero 0).1.confidence ≠ 30 := by
  have hr : (extractRedBalls (hist19.take 49)).length = 19 := by decide
  obtain ⟨hm, hc⟩ := forest_real_facts envFix orcFix hist19 49 rngZero 0 rfl
    (by decide) (by decide)
  refine ⟨by decide, rfl, hm, ?_⟩
  rw [hc, forestPredictRed_freq envFix orcFix 5 _ rngZero 0 (by
    have := prepareTrainingData_len envFix 5 (extractRedBalls (hist19.take 49))
    omega)]
  rw [hr]
  dsimp only
  with_unfolding_all decide

/-- Witness for C4 (amended) at the 49- and 19-draw fixtures. -/
theorem c4_threshold_split_witness :
    (envFix.hasSklearn = true ∧ hist49.length = 49 ∧
     (extractRedBalls (hist49.take 49)).length = 49 ∧
     hist19.length = 19 ∧ (extractRedBalls (hist19.take 49)).length = 19) ∧
    ((metaGet (trendPredict envFix.hasStatsmodels hist49 49 rngZero 0).1 "fallback"
        = none ∧
      metaGet (lstmPredict envFix hist49 49 rngZero 0).1 "fallback" = none ∧
      metaGet (forestPredict envFix orcFix hist49 49 rngZero 0).1 "fallback" = none) ∧
     (trendPredict envFix.hasStatsmodels hist19 49 rngZero 0
        = generateRandomFallback rngZero 0 ∧
      lstmPredict envFix hist19 49 rngZero 0 = generateRandomFallback rngZero 0 ∧
      metaGet (trendPredict envFix.hasStatsmodels hist19 49 rngZero 0).1 "fallback"
        = some (MetaVal.bool true) ∧
      metaGet (lstmPredict envFix hist19 49 rngZero 0).1 "fallback"
        = some (MetaVal.bool true)) ∧
     (metaGet (forestPredict envFix orcFix hist19 49 rngZero 0).1 "fallback" = none ∧
      (forestPredict envFix orcFix hist19 49 rngZero 0).1.confidence ≠ 30)) :=
  ⟨⟨rfl, by decide, by decide, by decide, by decide⟩,
   c4_threshold_split envFix orcFix hist49 hist19 49 rngZero 0 rfl
     (by decide) (by decide) (by decide) (by decide)⟩

/-! ## C3: confidence bounds of every generator -/


theorem calcSlope_five_eq (a b c d e : ℚ) :
    calcSlope [a, b, c, d, e] = (2*(e - a) + (d - b)) / 10 := by
  have h5 : ¬ (([a, b, c, d, e] : List ℚ).length < 2) := by simp
  simp only [calcSlope, if_neg h5]
  norm_num [meanQ, List.range_succ, List.zip]
  ring_nf

theorem meanQ_nonneg (l : List ℚ) (h : ∀ x ∈ l, 0 ≤ x) : 0 ≤ meanQ l :=
  div_nonneg (List.sum_nonneg h) (Nat.cast_nonneg _)

theorem meanQ_le (l : List ℚ) (c : ℚ) (hc : 0 ≤ c) (h : ∀ x ∈ l, x ≤ c) :
    meanQ l ≤ c := by
  rcases List.eq_nil_or_concat l with rfl | _
  · simpa [meanQ] using hc
  · have hlen : (0 : ℚ) < (l.length : ℚ) := by
      have : l ≠ [] := by
        rintro rfl
        simp at *
      have h2 : 0 < l.length := List.length_pos.mpr this
      exact_mod_cast h2
    rw [meanQ, div_le_iff₀ hlen]
    have := List.sum_le_card_nsmul l c h
    simpa [nsmul_eq_mul, mul_comm] using this

theorem le_meanQ (l : List ℚ) (c : ℚ) (hc : c ≤ 0) (h : ∀ x ∈ l, c ≤ x) :
    c ≤ meanQ l := by
  rcases List.eq_nil_or_concat l with rfl | _
  · simpa [meanQ] using hc
  · have hlen : (0 : ℚ) < (l.length : ℚ) := by
      have : l ≠ [] := by
        rintro rfl
        simp at *
      have h2 : 0 < l.length := List.length_pos.mpr this
      exact_mod_cast h2
    rw [meanQ, le_div_iff₀ hlen]
    have := List.card_nsmul_le_sum l c h
    simpa [nsmul_eq_mul, mul_comm] using this

theorem movingAverage_bounds (data : List ℚ) (window : Nat)
    (h : ∀ x ∈ data, 0 ≤ x ∧ x ≤ 1) :
    ∀ y ∈ movingAverage data window, 0 ≤ y ∧ y ≤ 1 := by
  intro y hy
  simp only [movingAverage] at hy
  split at hy
  · exact h y hy
  · obtain ⟨j, hj, rfl⟩ := List.mem_map.mp hy
    split
    · constructor
      · exact meanQ_nonneg _ (fun x hx => (h x (List.mem_of_mem_take hx)).1)
      · exact meanQ_le _ 1 (by norm_num)
          (fun x hx => (h x (List.mem_of_mem_take hx)).2)
    · constructor
      · exact meanQ_nonneg _ (fun x hx =>
          (h x (List.mem_of_mem_drop (List.mem_of_mem_take hx))).1)
      · exact meanQ_le _ 1 (by norm_num) (fun x hx =>
          (h x (List.mem_of_mem_drop (List.mem_of_mem_take hx))).2)

theorem calcSlope_bounds_of_five (l : List ℚ) (hlen : l.length = 5)
    (h : ∀ x ∈ l, 0 ≤ x ∧ x ≤ 1) :
    -(3/10) ≤ calcSlope l ∧ calcSlope l ≤ 3/10 := by
  match l, hlen with
  | [a, b, c, d, e], _ =>
    have ha := h a (by simp)
    have hb := h b (by simp)
    have hd := h d (by simp)
    have he := h e (by simp)
    rw [calcSlope_five_eq]
    constructor <;> [linarith [ha.1, ha.2, hb.1, hb.2, hd.1, hd.2, he.1, he.2];
      linarith [ha.1, ha.2, hb.1, hb.2, hd.1, hd.2, he.1, he.2]]



theorem calculateTrendScores_val_bounds (redHist : List (List Int)) (m : Nat) :
    ∀ p ∈ calculateTrendScores redHist m, -(3/10) ≤ p.2 ∧ p.2 ≤ 3/10 := by
  intro p hp
  obtain ⟨k, hk, rfl⟩ := List.mem_map.mp hp
  dsimp only
  split
  · norm_num
  · split
    · apply calcSlope_bounds_of_five
      · rw [List.length_drop]
        omega
      · intro x hx
        apply movingAverage_bounds _ _ _ x (List.mem_of_mem_drop hx)
        intro z hz
        obtain ⟨draw, hdr, rfl⟩ := List.mem_map.mp hz
        split <;> norm_num
    · norm_num

theorem trend_conf_nonneg (redHist : List (List Int)) :
    0 ≤ 50 + (if ((((calculateTrendScores redHist 33).sortB descBySnd).take 6).map
        (fun p => p.2)).length = 0 then 0
      else meanQ ((((calculateTrendScores redHist 33).sortB descBySnd).take 6).map
        (fun p => p.2))) * 20 := by
  have hb : ∀ y ∈ (((calculateTrendScores redHist 33).sortB descBySnd).take 6).map
      (fun p => p.2), -(3/10) ≤ y := by
    intro y hy
    obtain ⟨p, hp, rfl⟩ := List.mem_map.mp hy
    exact (calculateTrendScores_val_bounds redHist 33 p
      (mem_sortB.mp (List.mem_of_mem_take hp))).1
  split
  · norm_num
  · have := le_meanQ _ (-(3/10)) (by norm_num) hb
    linarith



theorem validate_conf_bounds (mc conf : ℚ) (reds : List Int) (blue : Int)
    (md : Option (List (String × MetaVal))) (r : Rng) (i : Nat)
    (h0 : 0 ≤ conf) (hmc : 0 ≤ mc) :
    0 ≤ (validatePrediction mc ⟨reds, blue, conf, md⟩ r i).1.confidence ∧
    (validatePrediction mc ⟨reds, blue, conf, md⟩ r i).1.confidence ≤ mc := by
  have h := (validatePrediction_facts mc ⟨reds, blue, conf, md⟩ r i).2.2.2.2.2.1
  rw [h]
  exact ⟨le_min h0 hmc, min_le_right _ _⟩

theorem cfc_bounds (s : List Int) (f : List (Int × Nat)) :
    0 ≤ calculateFrequencyConfidence s f ∧ calculateFrequencyConfidence s f ≤ 75 := by
  simp only [calculateFrequencyConfidence]
  split
  · norm_num
  · constructor
    · apply le_min _ (by norm_num)
      have h1 : (0:ℚ) ≤ ((s.map (fun n => lookupD f n 0)).sum : Nat) := Nat.cast_nonneg _
      have h2 : (0:ℚ) ≤ ((f.map (fun p => p.2)).sum : Nat) := Nat.cast_nonneg _
      positivity
    · exact min_le_right _ _

theorem freq_conf_bounds (hist : List Draw) (n : Nat) (r : Rng) (i : Nat) :
    0 ≤ (freqPredict hist n r i).1.confidence ∧
    (freqPredict hist n r i).1.confidence ≤ 75 := by
  by_cases h0 : hist.length = 0
  · simp only [freqPredict, if_pos h0]
    rw [(generateRandomFallback_facts r i).2.1]
    norm_num
  · by_cases h1 : (extractRedBalls (hist.take n)).length = 0
    · simp only [freqPredict, if_neg h0, if_pos h1]
      rw [(generateRandomFallback_facts r i).2.1]
      norm_num
    · simp only [freqPredict, if_neg h0, if_neg h1]
      exact validate_conf_bounds 75 _ _ _ _ r _ (cfc_bounds _ _).1 (by norm_num)

theorem trend_conf_bounds (hs : Bool) (hist : List Draw) (n : Nat) (r : Rng) (i : Nat) :
    0 ≤ (trendPredict hs hist n r i).1.confidence ∧
    (trendPredict hs hist n r i).1.confidence ≤ 70 := by
  by_cases h0 : hist.length = 0 ∨ hist.length < 30
  · simp only [trendPredict, if_pos h0]
    rw [(generateRandomFallback_facts r i).2.1]
    norm_num
  · by_cases h1 : (extractRedBalls (hist.take n)).length = 0 ∨
        (extractRedBalls (hist.take n)).length < 30
    · simp only [trendPredict, if_neg h0, if_pos h1]
      rw [(generateRandomFallback_facts r i).2.1]
      norm_num
    · simp only [trendPredict, if_neg h0, if_neg h1]
      exact validate_conf_bounds 70 _ _ _ _ r _
        (trend_conf_nonneg (extractRedBalls (hist.take n))) (by norm_num)



theorem getD_nonneg (l : List ℚ) (j : Nat) (h : ∀ x ∈ l, 0 ≤ x) : 0 ≤ l.getD j 0 := by
  rcases Nat.lt_or_ge j l.length with hj | hj
  · rw [List.getD_eq_getElem l 0 hj]
    exact h _ (List.getElem_mem hj)
  · rw [List.getD_eq_default l 0 hj]

theorem buildSequenceMatrix_nonneg (history : List (List Int)) (size : Nat) :
    ∀ row ∈ buildSequenceMatrix history size, ∀ x ∈ row, 0 ≤ x := by
  intro row hrow x hx
  obtain ⟨draw, hd, rfl⟩ := List.mem_map.mp hrow
  obtain ⟨k, hk, rfl⟩ := List.mem_map.mp hx
  split <;> norm_num

theorem recentWeightedProfile_nonneg (e : Env) (seqLen : Nat)
    (matrix : List (List ℚ)) (size : Nat) (hsin : SinRampNonneg e)
    (hm : ∀ row ∈ matrix, ∀ x ∈ row, 0 ≤ x) :
    ∀ y ∈ recentWeightedProfile e seqLen matrix size, 0 ≤ y := by
  intro y hy
  simp only [recentWeightedProfile] at hy
  split at hy
  · rw [List.eq_of_mem_replicate hy]
  · obtain ⟨j, hj, rfl⟩ := List.mem_map.mp hy
    apply div_nonneg
    · apply List.sum_nonneg
      intro z hz
      obtain ⟨p, hp, rfl⟩ := List.mem_map.mp hz
      obtain ⟨p1, p2⟩ := p
      have hmem := List.of_mem_zip hp
      apply mul_nonneg
      · exact getD_nonneg _ _ (hm p1 (List.mem_of_mem_drop hmem.1))
      · exact hsin _ _ hmem.2
    · exact List.sum_nonneg (fun w hw => hsin _ _ hw)

theorem ema_fold_nonneg (size : Nat) (alpha : ℚ) (ha : 0 ≤ alpha) (ha2 : alpha ≤ 1) :
    ∀ (rows : List (List ℚ)) (init : List ℚ), (∀ x ∈ init, 0 ≤ x) →
      (∀ row ∈ rows, ∀ x ∈ row, 0 ≤ x) →
      ∀ x ∈ rows.foldl (fun ema row => (List.range size).map
        (fun (j : Nat) => (1 - alpha) * ema.getD j 0 + alpha * row.getD j 0)) init,
        0 ≤ x := by
  intro rows
  induction rows with
  | nil => intro init hinit _ x hx; exact hinit x hx
  | cons row rest ih =>
    intro init hinit hrows x hx
    rw [List.foldl_cons] at hx
    apply ih _ _ (fun r hr => hrows r (List.mem_cons_of_mem row hr)) x hx
    intro z hz
    obtain ⟨j, hj, rfl⟩ := List.mem_map.mp hz
    have h1 := getD_nonneg init j hinit
    have h2 := getD_nonneg row j (hrows row (List.mem_cons_self row rest))
    nlinarith

theorem exponentialMemory_nonneg (matrix : List (List ℚ)) (size : Nat) (alpha : ℚ)
    (ha : 0 ≤ alpha) (ha2 : alpha ≤ 1)
    (hm : ∀ row ∈ matrix, ∀ x ∈ row, 0 ≤ x) :
    ∀ y ∈ exponentialMemory matrix size alpha, 0 ≤ y := by
  intro y hy
  simp only [exponentialMemory] at hy
  have hema := ema_fold_nonneg size alpha ha ha2 matrix (List.replicate size 0)
    (fun x hx => by rw [List.eq_of_mem_replicate hx]) hm
  split at hy
  · obtain ⟨z, hz, rfl⟩ := List.mem_map.mp hy
    have hmp : (0:ℚ) ≤ _ := le_of_lt (by assumption)
    exact div_nonneg (hema z hz) (le_of_lt (by assumption))
  · exact hema y hy

theorem coOccurrenceScores_nonneg (history : List (List Int)) (seqLen : Nat) :
    ∀ y ∈ coOccurrenceScores history seqLen, 0 ≤ y := by
  intro y hy
  simp only [coOccurrenceScores] at hy
  split at hy
  · rw [List.eq_of_mem_replicate hy]
  · split at hy
    · obtain ⟨z, hz, rfl⟩ := List.mem_map.mp hy
      apply div_nonneg _ (le_of_lt (by assumption))
      obtain ⟨k, hk, rfl⟩ := List.mem_map.mp hz
      apply List.sum_nonneg
      intro u hu
      obtain ⟨draw, hd, rfl⟩ := List.mem_map.mp hu
      split
      · exact Nat.cast_nonneg _
      · exact le_refl 0
    · obtain ⟨k, hk, rfl⟩ := List.mem_map.mp hy
      apply List.sum_nonneg
      intro u hu
      obtain ⟨draw, hd, rfl⟩ := List.mem_map.mp hu
      split
      · exact Nat.cast_nonneg _
      · exact le_refl 0



theorem predictRedSequence_profile_nonneg (e : Env) (seqLen : Nat)
    (redHist : List (List Int)) (r : Rng) (i : Nat) (hsin : SinRampNonneg e) :
    ∀ y ∈ (predictRedSequence e seqLen redHist r i).1.2, 0 ≤ y := by
  intro y hy
  simp only [predictRedSequence] at hy
  split at hy
  · rw [List.eq_of_mem_replicate hy]
  · have hcomb : ∀ z ∈ (List.range 33).map (fun (j : Nat) =>
        (4 / 10 : ℚ) * (recentWeightedProfile e seqLen
            (buildSequenceMatrix redHist 33) 33).getD j 0
        + (3 / 10) * (exponentialMemory (buildSequenceMatrix redHist 33) 33
            (18 / 100)).getD j 0
        + (3 / 10) * (coOccurrenceScores redHist seqLen).getD j 0), 0 ≤ z := by
      intro z hz
      obtain ⟨j, hj, rfl⟩ := List.mem_map.mp hz
      have h1 := getD_nonneg _ j (recentWeightedProfile_nonneg e seqLen _ 33 hsin
        (buildSequenceMatrix_nonneg redHist 33))
      have h2 := getD_nonneg _ j (exponentialMemory_nonneg
        (buildSequenceMatrix redHist 33) 33 (18 / 100) (by norm_num) (by norm_num)
        (buildSequenceMatrix_nonneg redHist 33))
      have h3 := getD_nonneg _ j (coOccurrenceScores_nonneg redHist seqLen)
      have hm1 : (0:ℚ) ≤ (4 / 10 : ℚ) *
          (recentWeightedProfile e seqLen (buildSequenceMatrix redHist 33) 33).getD j 0 :=
        mul_nonneg (by norm_num) h1
      have hm2 : (0:ℚ) ≤ (3 / 10 : ℚ) *
          (exponentialMemory (buildSequenceMatrix redHist 33) 33 (18 / 100)).getD j 0 :=
        mul_nonneg (by norm_num) h2
      have hm3 : (0:ℚ) ≤ (3 / 10 : ℚ) * (coOccurrenceScores redHist seqLen).getD j 0 :=
        mul_nonneg (by norm_num) h3
      linarith
    dsimp only at hy
    split at hy
    · obtain ⟨z, hz, rfl⟩ := List.mem_map.mp hy
      exact div_nonneg (hcomb z hz) (le_of_lt (by assumption))
    · exact hcomb y hy

theorem lstmCalcConfidence_bounds (e : Env) (profile : List ℚ) (predicted : List Int)
    (hp : ∀ y ∈ profile, 0 ≤ y) :
    0 ≤ lstmCalcConfidence e profile predicted ∧
    lstmCalcConfidence e profile predicted ≤ 68 := by
  simp only [lstmCalcConfidence]
  split
  · norm_num
  · split
    · norm_num
    · constructor
      · apply le_min _ (by norm_num)
        have havg : 0 ≤ meanQ (predicted.filterMap (fun n =>
            if 1 ≤ n ∧ n ≤ (profile.length : Int) then
              some (profile.getD (n - 1).toNat 0) else none)) := by
          apply meanQ_nonneg
          intro x hx
          obtain ⟨a, ha, hfa⟩ := List.mem_filterMap.mp hx
          split at hfa
          · rw [← Option.some.inj hfa]
            exact getD_nonneg _ _ hp
          · exact absurd hfa (by simp)
        have hstab : (0:ℚ) ≤ max 0 (1 - stdQ e profile) := le_max_left _ _
        have hmul1 : 0 ≤ meanQ (predicted.filterMap (fun n =>
            if 1 ≤ n ∧ n ≤ (profile.length : Int) then
              some (profile.getD (n - 1).toNat 0) else none)) * 25 :=
          mul_nonneg havg (by norm_num)
        have hmul2 : (0:ℚ) ≤ max 0 (1 - stdQ e profile) * 8 :=
          mul_nonneg hstab (by norm_num)
        linarith
      · exact min_le_right _ _

theorem lstm_conf_bounds (e : Env) (hist : List Draw) (n : Nat) (r : Rng) (i : Nat)
    (hsin : SinRampNonneg e) :
    0 ≤ (lstmPredict e hist n r i).1.confidence ∧
    (lstmPredict e hist n r i).1.confidence ≤ 68 := by
  by_cases h0 : hist.length = 0 ∨ hist.length < 30
  · simp only [lstmPredict, if_pos h0]
    rw [(generateRandomFallback_facts r i).2.1]
    norm_num
  · by_cases h1 : (extractRedBalls (hist.take n)).length < 30
    · simp only [lstmPredict, if_neg h0, if_pos h1]
      rw [(generateRandomFallback_facts r i).2.1]
      norm_num
    · simp only [lstmPredict, if_neg h0, if_neg h1]
      exact validate_conf_bounds 68 _ _ _ _ r _
        (lstmCalcConfidence_bounds e _ _
          (predictRedSequence_profile_nonneg e 10 _ r i hsin)).1 (by norm_num)



theorem lookupD_nonneg (tbl : List (Int × ℚ)) (k : Int)
    (h : ∀ p ∈ tbl, 0 ≤ p.2) : 0 ≤ lookupD tbl k 0 := by
  simp only [lookupD]
  cases hlk : tbl.lookup k with
  | none => exact le_refl 0
  | some v =>
    obtain ⟨l1, l2, heq, hne⟩ := List.lookup_eq_some_iff.mp hlk
    have hm : (k, v) ∈ tbl := by
      rw [heq]
      exact List.mem_append_right l1 (List.mem_cons_self _ _)
    exact h _ hm

theorem forestPredictRed_prob_nonneg (e : Env) (o : ForestOracle) (lb : Nat)
    (redHist : List (List Int)) (r : Rng) (i : Nat) (hor : OracleProbsNonneg o) :
    0 ≤ (forestPredictRed e o lb redHist r i).1.2 := by
  simp only [forestPredictRed]
  split
  · dsimp only
    norm_num
  · split
    · dsimp only
      norm_num
    · dsimp only
      split
      · norm_num
      · apply meanQ_nonneg
        intro x hx
        obtain ⟨idx, hidx, rfl⟩ := List.mem_map.mp hx
        apply lookupD_nonneg
        intro p hp
        rcases Nat.lt_or_ge idx (o.probMaps (prepareTrainingData e lb redHist).1
            (prepareTrainingData e lb redHist).2
            (encodeWindowFeatures e (redHist.drop (redHist.length - lb)))).length
          with hlt | hge
        · rw [List.getD_eq_getElem _ _ hlt] at hp
          exact hor _ _ _ _ (List.getElem_mem hlt) p hp
        · rw [List.getD_eq_default _ _ hge] at hp
          cases hp

theorem forestFallback_conf_bounds (hist : List Draw) (n : Nat) (r : Rng) (i : Nat) :
    0 ≤ (forestFallbackPredict hist n r i).1.confidence ∧
    (forestFallbackPredict hist n r i).1.confidence ≤ 72 := by
  by_cases h0 : hist.length = 0
  · simp only [forestFallbackPredict, if_pos h0]
    rw [(generateRandomFallback_facts r i).2.1]
    norm_num
  · by_cases h1 : (extractRedBalls (hist.take (min n hist.length))).length = 0
    · simp only [forestFallbackPredict, if_neg h0, if_pos h1]
      rw [(generateRandomFallback_facts r i).2.1]
      norm_num
    · simp only [forestFallbackPredict, if_neg h0, if_neg h1]
      constructor
      · show (0:ℚ) ≤ 55
        norm_num
      · show (55:ℚ) ≤ 72
        norm_num

theorem forest_conf_bounds (e : Env) (o : ForestOracle) (hist : List Draw) (n : Nat)
    (r : Rng) (i : Nat) (hor : OracleProbsNonneg o) :
    0 ≤ (forestPredict e o hist n r i).1.confidence ∧
    (forestPredict e o hist n r i).1.confidence ≤ 72 := by
  by_cases hsk : ¬ e.hasSklearn
  · simp only [forestPredict, if_pos hsk]
    exact forestFallback_conf_bounds hist n r i
  · by_cases h0 : hist.length = 0 ∨ hist.length < 5 + 10
    · simp only [forestPredict, if_neg hsk, if_pos h0]
      rw [(generateRandomFallback_facts r i).2.1]
      norm_num
    · by_cases h1 : (extractRedBalls (hist.take n)).length < 5 + 10
      · simp only [forestPredict, if_neg hsk, if_neg h0, if_pos h1]
        exact forestFallback_conf_bounds hist n r i
      · simp only [forestPredict, if_neg hsk, if_neg h0, if_neg h1]
        apply validate_conf_bounds 72 _ _ _ _ r _ _ (by norm_num)
        have hp := forestPredictRed_prob_nonneg e o 5 (extractRedBalls (hist.take n))
          r i hor
        have h2 : (0:ℚ) ≤ min (((extractRedBalls (hist.take n)).length : ℚ) / 400) 1 :=
          le_min (by positivity) (by norm_num)
        have hm1 : 0 ≤ (forestPredictRed e o 5 (extractRedBalls (hist.take n)) r i).1.2
            * 28 := mul_nonneg hp (by norm_num)
        have hm2 : (0:ℚ) ≤ min (((extractRedBalls (hist.take n)).length : ℚ) / 400) 1
            * 10 := mul_nonneg h2 (by norm_num)
        linarith

theorem ensembleConf_bounds (w : List (String × ℚ))
    (preds : List (String × PredictionResult)) (combined : List (Int × ℚ))
    (selected : List Int) (ss : Nat) :
    0 ≤ calcEnsembleConfidence w preds combined selected ss ∧
    calcEnsembleConfidence w preds combined selected ss ≤ 80 := by
  simp only [calcEnsembleConfidence]
  constructor
  · exact le_min (le_trans (by norm_num) (le_max_right _ 52)) (by norm_num)
  · exact min_le_right _ _

theorem ensemble_conf_bounds (e : Env) (o : ForestOracle) (w : List (String × ℚ))
    (hist : List Draw) (n : Nat) (r : Rng) (i : Nat) :
    0 ≤ (ensemblePredict e o w hist n r i).1.confidence ∧
    (ensemblePredict e o w hist n r i).1.confidence ≤ 80 := by
  by_cases h0 : hist.length = 0
  · simp only [ensemblePredict, if_pos h0]
    rw [(generateRandomFallback_facts r i).2.1]
    norm_num
  · by_cases h1 : (extractRedBalls (hist.take n)).length < 20
    · simp only [ensemblePredict, if_neg h0, if_pos h1]
      rw [(generateRandomFallback_facts r i).2.1]
      norm_num
    · simp only [ensemblePredict, if_neg h0, if_neg h1]
      exact validate_conf_bounds 80 _ _ _ _ r _
        (ensembleConf_bounds _ _ _ _ _).1 (by norm_num)



/-- C3: for every generator, every history, dataset size, random stream,
weight table, environment with a nonnegative sine ramp and classifier oracle
with nonnegative probabilities, the returned confidence lies in
`[0, ceiling]`: frequency 75, trend 70, forest 72, sequence-memory 68,
ensemble 80 — nonnegative on every path, fallbacks included. -/
theorem c3_confidence_bounds (e : Env) (o : ForestOracle) (w : List (String × ℚ))
    (hist : List Draw) (n : Nat) (r : Rng) (i : Nat)
    (hsin : SinRampNonneg e) (hor : OracleProbsNonneg o) :
    (0 ≤ (freqPredict hist n r i).1.confidence ∧
      (freqPredict hist n r i).1.confidence ≤ 75) ∧
    (0 ≤ (trendPredict e.hasStatsmodels hist n r i).1.confidence ∧
      (trendPredict e.hasStatsmodels hist n r i).1.confidence ≤ 70) ∧
    (0 ≤ (forestPredict e o hist n r i).1.confidence ∧
      (forestPredict e o hist n r i).1.confidence ≤ 72) ∧
    (0 ≤ (lstmPredict e hist n r i).1.confidence ∧
      (lstmPredict e hist n r i).1.confidence ≤ 68) ∧
    (0 ≤ (ensemblePredict e o w hist n r i).1.confidence ∧
      (ensemblePredict e o w hist n r i).1.confidence ≤ 80) :=
  ⟨freq_conf_bounds hist n r i,
   trend_conf_bounds e.hasStatsmodels hist n r i,
   forest_conf_bounds e o hist n r i hor,
   lstm_conf_bounds e hist n r i hsin,
   ensemble_conf_bounds e o w hist n r i⟩

/-- Witness for C3 at the concrete environment/oracle fixtures. -/
theorem c3_confidence_bounds_witness :
    SinRampNonneg envFix ∧ OracleProbsNonneg orcFix ∧
    ((0 ≤ (freqPredict hist19 10 rngZero 0).1.confidence ∧
      (freqPredict hist19 10 rngZero 0).1.confidence ≤ 75) ∧
    (0 ≤ (trendPredict envFix.hasStatsmodels hist19 10 rngZero 0).1.confidence ∧
      (trendPredict envFix.hasStatsmodels hist19 10 rngZero 0).1.confidence ≤ 70) ∧
    (0 ≤ (forestPredict envFix orcFix hist19 10 rngZero 0).1.confidence ∧
      (forestPredict envFix orcFix hist19 10 rngZero 0).1.confidence ≤ 72) ∧
    (0 ≤ (lstmPredict envFix hist19 10 rngZero 0).1.confidence ∧
      (lstmPredict envFix hist19 10 rngZero 0).1.confidence ≤ 68) ∧
    (0 ≤ (ensemblePredict envFix orcFix defaultWeights hist19 10 rngZero 0).1.confidence ∧
      (ensemblePredict envFix orcFix defaultWeights hist19 10 rngZero 0).1.confidence
        ≤ 80)) := by
  have h1 : SinRampNonneg envFix := by
    intro n w hw
    rw [List.eq_of_mem_replicate hw]
  have h2 : OracleProbsNonneg orcFix := by
    intro X y f m hm
    cases hm
  exact ⟨h1, h2, c3_confidence_bounds envFix orcFix defaultWeights hist19 10 rngZero 0 h1 h2⟩

end LotteryPred
